import Mathlib

/-!
# NoDB: the in-memory document store of `src/index.js`

A shallow embedding of the `Database` class: collections of documents, the
per-field value maps (`this.indexes`), the listener registry and the CRUD
operations, followed by theorems about them.

`Store` is an instance of the class; `Database` is the type of its field
`this.database`, as in the specification's data model.

Modelling conventions.

* A JavaScript object is the list of its own enumerable properties in the
  order of their creation.  `for...in` enumerates them as the language does:
  the array indices first, in ascending order, then the other names in the
  order of creation (`ownKeys`).
* `this.database`, `this.indexes`, the index objects, `this.events`, the
  documents and the filters are plain objects: a property that an object
  does not have of its own is looked up in `Object.prototype`, whose names
  are `protoNames`.  The value found there is a function (for `__proto__`,
  the prototype object): it is truthy, it is neither an array nor a `Map`,
  and calling `push`, `forEach`, `findIndex`, `filter`, `has`, `set` or
  `delete` on it is a `TypeError`.  `Slot` tells the three cases of a read
  apart.
* Field values are data: `Val` has no functions.  Hence an own property
  named `hasOwnProperty` cannot be called, and `o.hasOwnProperty(key)` on
  such an object is a `TypeError`.
* A JavaScript `Map` is an association list keyed by values compared with
  SameValueZero, which on `Val` is structural equality (`NaN` equals `NaN`,
  the two zeros are one number).  `===` is `strictEq`, which differs from it
  only at `NaN`.
* Nested objects and arrays occur only as field values and are compared by
  reference, so they are represented by their address.  Numbers other than
  `NaN` are compared by value and are represented by integers.
* Documents are never compared by reference in the source, so a document is
  represented by its content.
* Listeners are observers: they receive the payload and either return or
  throw.  Every listener call, file write and integrity check is appended to
  `Store.log`, so that "no listener is invoked" and "no save is performed" are
  statements about the log.
* An operation yields the store it leaves behind together with either the
  value it returns or the error it throws; the store is kept in both cases,
  as the mutations made before a throw are not undone.
* Two things the code can do are not followed further and end a call with
  `Err.builtinAccess`: reading or writing a property of a value inherited
  from `Object.prototype` (which happens when `this.indexes` has no index
  object for a collection whose name is inherited), and the assignment
  `this.indexes["__proto__"] = {}`, which replaces the prototype of
  `this.indexes`.
* The backup period is a double.  `parseInt` of a digit string and its
  products with positive integers are non-negative integers or `Infinity`;
  `Amount` holds them and `toDouble` rounds as IEEE 754 does.
* `loadFromFile` and the constructor run before any document is stored; they
  are modelled on the parsed JSON value, with `JSON.parse` and the file system
  as parameters.
-/

namespace NoDB

/-! ## Values and objects -/

/-- A JavaScript value as far as `===` and `Map` keys can tell values apart. -/
inductive Val where
  | undefined
  | null
  | bool (b : Bool)
  | num (n : Int)
  | nan
  | str (s : String)
  | ref (addr : Nat)
  deriving DecidableEq, Repr

/-- The operator `===`: equality of values, except that `NaN` differs from itself. -/
def strictEq (a b : Val) : Bool :=
  if a = Val.nan then false else decide (a = b)

/-- JavaScript truthiness, as tested by `!x`. -/
def truthy : Val → Bool
  | .undefined => false
  | .null => false
  | .bool b => b
  | .num n => decide (n ≠ 0)
  | .nan => false
  | .str s => decide (s ≠ "")
  | .ref _ => true

/-- Lookup in an association list: the first entry with the key. -/
def assocGet {κ α : Type} [DecidableEq κ] (k : κ) : List (κ × α) → Option α
  | [] => none
  | e :: t => if e.1 = k then some e.2 else assocGet k t

/-- Assignment `o[k] = v` and `Map.set(k, v)`: an existing entry is
overwritten where it stands, a new one is appended. -/
def assocSet {κ α : Type} [DecidableEq κ] (k : κ) (v : α) : List (κ × α) → List (κ × α)
  | [] => [(k, v)]
  | e :: t => if e.1 = k then (k, v) :: t else e :: assocSet k v t

/-- The method `Map.delete(k)`: no entry with the key is left. -/
def assocDel {κ α : Type} [DecidableEq κ] (k : κ) (l : List (κ × α)) : List (κ × α) :=
  l.filter (fun e => decide (e.1 ≠ k))

/-- The property names of `Object.prototype`, which every plain object
inherits. -/
def protoNames : List String :=
  ["constructor", "__defineGetter__", "__defineSetter__", "hasOwnProperty",
    "__lookupGetter__", "__lookupSetter__", "isPrototypeOf", "propertyIsEnumerable",
    "toString", "valueOf", "__proto__", "toLocaleString"]

/-- Whether a name is inherited from `Object.prototype`. -/
def isProto (k : String) : Bool := protoNames.any (fun n => decide (n = k))

/-- The result of the read `o[k]` on a plain object: a property of its own, a
value inherited from `Object.prototype`, or `undefined`. -/
inductive Slot (α : Type) where
  | own (a : α)
  | inherited
  | absent

/-- The read `o[k]` on `this.database` and on `this.indexes`. -/
def slot {α : Type} (k : String) (o : List (String × α)) : Slot α :=
  match assocGet k o with
  | some a => Slot.own a
  | none => if isProto k then Slot.inherited else Slot.absent

/-- The read `o[k]` on an index object and on `this.events`.  These objects
are created empty and get a property only under a name at which the read
was falsy, hence never under an inherited name: at such a name the read is
the inherited value. -/
def plainSlot {α : Type} (k : String) (o : List (String × α)) : Slot α :=
  if isProto k then Slot.inherited
  else
    match assocGet k o with
    | some a => Slot.own a
    | none => Slot.absent

/-- The natural number that a list of decimal digits denotes. -/
def digitsValue (digits : List Char) : Nat :=
  digits.foldl (fun n c => 10 * n + (c.toNat - 48)) 0

/-- Whether a property name is an array index: a decimal numeral without a
leading zero, below `2^32 - 1`. -/
def isIndexKey (k : String) : Bool :=
  !k.data.isEmpty && k.data.all Char.isDigit &&
    (decide (k.data.head? ≠ some '0') || decide (k.data.length = 1)) &&
    decide (digitsValue k.data < 4294967295)

/-- Insertion of an array index into an ascending list of array indices. -/
def insertKey (k : String) : List String → List String
  | [] => [k]
  | h :: t =>
    if digitsValue k.data ≤ digitsValue h.data then k :: h :: t else h :: insertKey k t

/-- Array indices in ascending order. -/
def sortKeys : List String → List String
  | [] => []
  | k :: t => insertKey k (sortKeys t)

/-- The own property names of an object in the order in which `for...in` and
the spread enumerate them: the array indices in ascending order, then the
other names in the order of their creation. -/
def ownKeys {α : Type} (o : List (String × α)) : List String :=
  sortKeys ((o.map Prod.fst).filter isIndexKey) ++
    (o.map Prod.fst).filter (fun k => !isIndexKey k)

/-- An object of data: its own enumerable properties. -/
abbrev Obj := List (String × Val)

/-- A document is an object. -/
abbrev Doc := Obj

/-- The names enumerated by `for (const key in o)`. -/
def keys (o : Obj) : List String := ownKeys o

/-- The read `o[k]` of a property that `o` has of its own, or of a name that
`Object.prototype` does not have (`document.id`): `undefined` when `o` has no
such property. -/
def getField (o : Obj) (k : String) : Val := (assocGet k o).getD Val.undefined

/-- What the read `o[k]` yields for any name: a data value, or the value
inherited from `Object.prototype` under that name. -/
inductive Read where
  | value (v : Val)
  | inherited (name : String)
  deriving DecidableEq, Repr

/-- The property read `o[k]`. -/
def readField (o : Obj) (k : String) : Read :=
  match assocGet k o with
  | some v => Read.value v
  | none => if isProto k then Read.inherited k else Read.value Val.undefined

/-- The test `o[k] === v` against a data value `v`, which an inherited
function never equals. -/
def fieldEq (o : Obj) (k : String) (v : Val) : Bool :=
  match readField o k with
  | Read.value a => strictEq a v
  | Read.inherited _ => false

/-- Whether `o.hasOwnProperty(key)` is a `TypeError`: `o` has a property of
its own named `hasOwnProperty`, whose value is data and cannot be called. -/
def shadowsHasOwnProperty {α : Type} (o : List (String × α)) : Bool :=
  decide ("hasOwnProperty" ∈ ownKeys o)

/-- Copies every property of `src` onto `target` (one spread `...src`). -/
def assign (target src : Obj) : Obj :=
  (keys src).foldl (fun t k => assocSet k (getField src k) t) target

/-- The object literal `{ ...a, ...b }`. -/
def merge (a b : Obj) : Obj := assign (assign [] a) b

/-! ## The store -/

/-- The field `this.database`: collection name to document sequence. -/
abbrev Database := List (String × List Doc)

/-- A `Map` from field value to document. -/
abbrev ValMap := List (Val × Doc)

/-- The object `this.indexes[collectionName]`: field name to `Map`. -/
abbrev FieldIndex := List (String × ValMap)

/-- The field `this.indexes`. -/
abbrev Indexes := List (String × FieldIndex)

/-- The argument passed to the listeners of an event. -/
inductive Payload where
  | inserted (collectionName : String) (document : Doc)
  | updated (collectionName : String) (filter update : Obj)
  | deleted (collectionName : String) (filter : Obj)
  deriving DecidableEq, Repr

/-- A registered callback: `tag` identifies it, `throwsOn` tells on which
payloads it throws. -/
structure Listener where
  tag : Nat
  throwsOn : Payload → Bool

/-- What an operation does beyond changing the store's fields. -/
inductive Effect where
  | called (tag : Nat) (payload : Payload)
  | writeFile (content : Database)
  | checked (content : Database)
  deriving DecidableEq, Repr

/-- The failures an operation can end with.  `builtinAccess` is not an
exception of the code: it marks the point at which the code goes on to read
or write a property of a built-in value, or replaces the prototype of
`this.indexes`, where the model stops. -/
inductive Err where
  | typeError
  | listener (tag : Nat)
  | integrity
  | builtinAccess
  deriving DecidableEq, Repr

/-- The constructor's `options`. -/
structure Options where
  backupEnabled : Bool
  backupInterval : String
  backupPath : String
  saveToFile : Bool
  deriving DecidableEq, Repr

/-- The state of a `Database` instance. -/
structure Store where
  options : Options
  /-- Modelled from the spec: `utils/integrity` is not among the sources; the
  spec describes `checkIntegrity(database)` as a check that reports or raises
  on structural inconsistency.  `true` means that it raises. -/
  checkIntegrity : Database → Bool
  database : Database
  indexes : Indexes
  events : List (String × List Listener)
  log : List Effect

/-- The fields set by the constructor before it loads the file. -/
def emptyStore (options : Options) (checkIntegrity : Database → Bool) : Store :=
  { options := options, checkIntegrity := checkIntegrity,
    database := [], indexes := [], events := [], log := [] }

/-- The outcome of a call: the store it leaves and what it returns or throws. -/
abbrev Outcome (α : Type) := Store × Except Err α

/-- The method `saveToFile`: one synchronous write of the whole database when
the option is set; a failing write is caught inside. -/
def saveToFile (s : Store) : Store :=
  if s.options.saveToFile then { s with log := s.log ++ [Effect.writeFile s.database] } else s

/-- The method `saveChanges`: save, then the integrity check, which may raise. -/
def saveChanges (s : Store) : Store × Option Err :=
  let s1 := saveToFile s
  let s2 := { s1 with log := s1.log ++ [Effect.checked s1.database] }
  if s.checkIntegrity s.database then (s2, some Err.integrity) else (s2, none)

/-- The body of `listeners.forEach(listener => listener(...args))`: the first
listener that throws ends the loop. -/
def runListeners (p : Payload) : List Listener → List Effect → List Effect × Option Err
  | [], log => (log, none)
  | l :: ls, log =>
    if l.throwsOn p then (log ++ [Effect.called l.tag p], some (Err.listener l.tag))
    else runListeners p ls (log ++ [Effect.called l.tag p])

/-- The method `emit`.  Under an inherited event name `listeners` is the
inherited function, which is truthy and has no `forEach`. -/
def emit (s : Store) (event : String) (p : Payload) : Store × Option Err :=
  match plainSlot event s.events with
  | Slot.absent => (s, none)
  | Slot.inherited => (s, some Err.typeError)
  | Slot.own listeners =>
    let r := runListeners p listeners s.log
    ({ s with log := r.1 }, r.2)

/-- The method `on` (a reserved word in Lean, hence the longer name).  Under
an inherited event name `this.events[event]` is the inherited function, which
is truthy and has no `push`. -/
def onEvent (s : Store) (event : String) (listener : Listener) : Store × Option Err :=
  match plainSlot event s.events with
  | Slot.absent => ({ s with events := assocSet event [listener] s.events }, none)
  | Slot.inherited => (s, some Err.typeError)
  | Slot.own listeners =>
    ({ s with events := assocSet event (listeners ++ [listener]) s.events }, none)

/-- The tail shared by the three mutations: emit, then `saveChanges`, then
return `ret`. -/
def emitAndSave {α : Type} (s : Store) (event : String) (p : Payload) (ret : α) : Outcome α :=
  match emit s event p with
  | (s1, some e) => (s1, Except.error e)
  | (s1, none) =>
    match saveChanges s1 with
    | (s2, some e) => (s2, Except.error e)
    | (s2, none) => (s2, Except.ok ret)

/-- The method `createCollection`: under a name that `this.database` has of
its own or inherits, the test `!this.database[collectionName]` is false and
nothing is done. -/
def createCollection (s : Store) (collectionName : String) : Store :=
  match slot collectionName s.database with
  | Slot.absent =>
    { s with database := assocSet collectionName [] s.database,
             indexes := assocSet collectionName [] s.indexes }
  | _ => s

/-- The two statements in the loop of `indexDocument` on an index object `fi`
and a key that is not inherited: create the field's `Map` when it is missing,
then `set(document[key], document)`. -/
def indexField (document : Doc) (fi : FieldIndex) (key : String) : FieldIndex :=
  assocSet key (assocSet (getField document key) document ((assocGet key fi).getD [])) fi

/-- One turn of the loop of `indexDocument`.  Reading
`this.indexes[collectionName][key]` is a `TypeError` when the collection has
no index object; under an inherited key it yields the inherited function, so
that no `Map` is made and `.set` is a `TypeError`. -/
def indexStep (collectionName : String) (document : Doc) (idx : Indexes) (key : String) :
    Except Err Indexes :=
  match slot collectionName idx with
  | Slot.absent => Except.error Err.typeError
  | Slot.inherited => Except.error Err.builtinAccess
  | Slot.own fi =>
    match plainSlot key fi with
    | Slot.inherited => Except.error Err.typeError
    | Slot.absent =>
      Except.ok (assocSet collectionName
        (assocSet key (assocSet (getField document key) document []) fi) idx)
    | Slot.own m =>
      Except.ok (assocSet collectionName
        (assocSet key (assocSet (getField document key) document m) fi) idx)

/-- A loop over keys that changes `this.indexes` turn by turn: the first turn
that throws ends it, and the changes made by the turns before it stay. -/
def stepAll (step : Indexes → String → Except Err Indexes) :
    List String → Indexes → Indexes × Option Err
  | [], idx => (idx, none)
  | key :: ks, idx =>
    match step idx key with
    | Except.error e => (idx, some e)
    | Except.ok idx' => stepAll step ks idx'

/-- The method `indexDocument`: the value of `this.indexes` it leaves and the
error it throws, if any.  The first turn calls `document.hasOwnProperty`. -/
def indexDocument (idx : Indexes) (collectionName : String) (document : Doc) :
    Indexes × Option Err :=
  if shadowsHasOwnProperty document then (idx, some Err.typeError)
  else stepAll (indexStep collectionName document) (keys document) idx

/-- The callback of `forEach` in `buildIndexes`, whose body is the body of
`indexDocument`, applied to the documents of one collection in order. -/
def buildCollection (collectionName : String) : List Doc → Indexes → Indexes × Option Err
  | [], idx => (idx, none)
  | doc :: docs, idx =>
    match indexDocument idx collectionName doc with
    | (idx', some e) => (idx', some e)
    | (idx', none) => buildCollection collectionName docs idx'

/-- The loop of `buildIndexes` over the collection names: a fresh index
object, then every document of the collection. -/
def buildLoop (db : Database) : List String → Indexes → Indexes × Option Err
  | [], idx => (idx, none)
  | c :: cs, idx =>
    if c = "__proto__" then (idx, some Err.builtinAccess)
    else
      match buildCollection c ((assocGet c db).getD []) (assocSet c [] idx) with
      | (idx', some e) => (idx', some e)
      | (idx', none) => buildLoop db cs idx'

/-- The method `buildIndexes`: the index object of every collection of
`this.database` is made anew from its documents.  The store it leaves and the
error it throws, if any; the first turn calls `this.database.hasOwnProperty`. -/
def buildIndexes (s : Store) : Store × Option Err :=
  if shadowsHasOwnProperty s.database then (s, some Err.typeError)
  else
    let r := buildLoop s.database (ownKeys s.database) s.indexes
    ({ s with indexes := r.1 }, r.2)

/-- The statement in the loop of `removeDocumentFromIndex` on an index object
`fi` and a key that is not inherited. -/
def unindexField (document : Doc) (fi : FieldIndex) (key : String) : FieldIndex :=
  match assocGet key fi with
  | none => fi
  | some m => assocSet key (assocDel (getField document key) m) fi

/-- One turn of the loop of `removeDocumentFromIndex`. -/
def unindexStep (collectionName : String) (document : Doc) (idx : Indexes) (key : String) :
    Except Err Indexes :=
  match slot collectionName idx with
  | Slot.absent => Except.error Err.typeError
  | Slot.inherited => Except.error Err.builtinAccess
  | Slot.own fi =>
    match plainSlot key fi with
    | Slot.inherited => Except.error Err.typeError
    | Slot.absent => Except.ok idx
    | Slot.own m =>
      Except.ok (assocSet collectionName
        (assocSet key (assocDel (getField document key) m) fi) idx)

/-- The method `removeDocumentFromIndex`: the value of `this.indexes` it
leaves and the error it throws, if any. -/
def removeDocumentFromIndex (idx : Indexes) (collectionName : String) (document : Doc) :
    Indexes × Option Err :=
  if shadowsHasOwnProperty document then (idx, some Err.typeError)
  else stepAll (unindexStep collectionName document) (keys document) idx

/-- The document as stored by `insertDocument`: `document.id` is set to the
generated identifier when it is falsy. -/
def withId (document : Doc) (generated : String) : Doc :=
  if truthy (getField document "id") then document
  else assocSet "id" (Val.str generated) document

/-- The method `insertDocument`; `generated` is what `generateUniqueId()`
returns when it is called.  The method has no `return` statement.  Under an
inherited collection name `this.database[collectionName]` is the inherited
function: no collection is created and `.push` is a `TypeError`. -/
def insertDocument (s : Store) (collectionName : String) (document : Doc) (generated : String) :
    Outcome Unit :=
  let document := withId document generated
  let s1 :=
    match slot collectionName s.database with
    | Slot.absent => createCollection s collectionName
    | _ => s
  match slot collectionName s1.database with
  | Slot.own collection =>
    let s2 := { s1 with database := assocSet collectionName (collection ++ [document]) s1.database }
    match indexDocument s2.indexes collectionName document with
    | (idx, some e) => ({ s2 with indexes := idx }, Except.error e)
    | (idx, none) =>
      emitAndSave { s2 with indexes := idx } "documentInserted"
        (Payload.inserted collectionName document) ()
  | _ => (s1, Except.error Err.typeError)

/-- What `findDocuments` hands back: a sequence of documents or, under an
inherited collection name, the value that `this.database` inherits under that
name. -/
inductive Found where
  | docs (l : List Doc)
  | inherited (name : String)
  deriving DecidableEq, Repr

/-- The loop of `findDocuments` over the filter's keys. -/
def findLoop (idx : Indexes) (collectionName : String) (filter : Obj) :
    List String → Found → Except Err Found
  | [], result => Except.ok result
  | key :: ks, result =>
    match slot collectionName idx with
    | Slot.absent => Except.error Err.typeError
    | Slot.inherited => Except.error Err.builtinAccess
    | Slot.own fi =>
      match plainSlot key fi with
      | Slot.absent => findLoop idx collectionName filter ks result
      | Slot.inherited => Except.error Err.typeError
      | Slot.own m =>
        if (assocGet (getField filter key) m).isSome then
          match result with
          | Found.docs l =>
            findLoop idx collectionName filter ks
              (Found.docs (l.filter (fun doc => fieldEq doc key (getField filter key))))
          | Found.inherited _ => Except.error Err.typeError
        else Except.ok (Found.docs [])

/-- The method `findDocuments`.  The first turn of the loop calls
`filter.hasOwnProperty`. -/
def findDocuments (s : Store) (collectionName : String) (filter : Obj) : Except Err Found :=
  match slot collectionName s.database with
  | Slot.absent => Except.ok (Found.docs [])
  | Slot.own collection =>
    if shadowsHasOwnProperty filter then Except.error Err.typeError
    else findLoop s.indexes collectionName filter (keys filter) (Found.docs collection)
  | Slot.inherited =>
    if shadowsHasOwnProperty filter then Except.error Err.typeError
    else findLoop s.indexes collectionName filter (keys filter) (Found.inherited collectionName)

/-- The callback given to `findIndex` by `updateDocument` and `deleteDocument`. -/
def matchesFilter (filter : Obj) (doc : Doc) : Bool :=
  (keys filter).all (fun key => fieldEq doc key (getField filter key))

/-- The method `Array.prototype.findIndex`, with `none` for `-1`. -/
def findIndex {α : Type} (p : α → Bool) : List α → Option Nat
  | [] => none
  | a :: t => if p a then some 0 else (findIndex p t).map (· + 1)

/-- The method `updateDocument`; `none` is the `null` it returns.  Under an
inherited collection name `collection` is the inherited function, which has
no `findIndex`. -/
def updateDocument (s : Store) (collectionName : String) (filter update : Obj) :
    Outcome (Option Doc) :=
  match slot collectionName s.database with
  | Slot.absent => (s, Except.ok none)
  | Slot.inherited => (s, Except.error Err.typeError)
  | Slot.own collection =>
    match findIndex (matchesFilter filter) collection with
    | none => (s, Except.ok none)
    | some docIndex =>
      let updatedDoc := merge (collection.getD docIndex []) update
      let replaced := collection.set docIndex updatedDoc
      let s1 := { s with database := assocSet collectionName replaced s.database }
      match indexDocument s1.indexes collectionName updatedDoc with
      | (idx, some e) => ({ s1 with indexes := idx }, Except.error e)
      | (idx, none) =>
        emitAndSave { s1 with indexes := idx } "documentUpdated"
          (Payload.updated collectionName filter update) (some updatedDoc)

/-- The method `deleteDocument`; `none` is the `null` it returns. -/
def deleteDocument (s : Store) (collectionName : String) (filter : Obj) :
    Outcome (Option Doc) :=
  match slot collectionName s.database with
  | Slot.absent => (s, Except.ok none)
  | Slot.inherited => (s, Except.error Err.typeError)
  | Slot.own collection =>
    match findIndex (matchesFilter filter) collection with
    | none => (s, Except.ok none)
    | some docIndex =>
      let deletedDoc := collection.getD docIndex []
      let spliced := collection.eraseIdx docIndex
      let s1 := { s with database := assocSet collectionName spliced s.database }
      match removeDocumentFromIndex s1.indexes collectionName deletedDoc with
      | (idx, some e) => ({ s1 with indexes := idx }, Except.error e)
      | (idx, none) =>
        emitAndSave { s1 with indexes := idx } "documentDeleted"
          (Payload.deleted collectionName filter) (some deletedDoc)

/-! ## Sequences of calls and well-formed stores -/

/-- A mutating call with its arguments. -/
inductive Op where
  | insert (collectionName : String) (document : Doc) (generated : String)
  | update (collectionName : String) (filter update : Obj)
  | delete (collectionName : String) (filter : Obj)
  deriving DecidableEq, Repr

/-- The store left by one call, whether it returned or threw. -/
def applyOp (s : Store) : Op → Store
  | .insert c d g => (insertDocument s c d g).1
  | .update c f u => (updateDocument s c f u).1
  | .delete c f => (deleteDocument s c f).1

/-- The store left by a sequence of calls. -/
def runOps (s : Store) (ops : List Op) : Store := ops.foldl applyOp s

/-- The store left by `insertDocument(c, d1)`, ..., `insertDocument(c, dn)`, each
document paired with the identifier generated for it should it need one. -/
def insertAll (s : Store) (collectionName : String) (docs : List (Doc × String)) : Store :=
  docs.foldl (fun s dg => (insertDocument s collectionName dg.1 dg.2).1) s

/-- Every collection of `this.database` has an object in `this.indexes`, as
`createCollection` arranges. -/
def hasIndexObjects (s : Store) : Bool :=
  (s.database.map Prod.fst).all (fun c => (assocGet c s.indexes).isSome)

/-- The read `ix[k]` on an index object yields a `Map`. -/
def hasMap (ix : FieldIndex) (k : String) : Bool :=
  match plainSlot k ix with
  | Slot.own _ => true
  | _ => false

/-- Every field of every document of `db` has a `Map` in the index that
`idx` holds for its collection. -/
def indexedIn (db : Database) (idx : Indexes) : Bool :=
  db.all (fun e =>
    match assocGet e.1 idx with
    | none => false
    | some ix => e.2.all (fun doc => (keys doc).all (hasMap ix)))

/-- Every field of every stored document has a `Map` in the index of its
collection. -/
def fieldsIndexed (s : Store) : Bool := indexedIn s.database s.indexes

/-- The field `this.indexes` as `insertDocument` finds it when it indexes the
document: with the empty index object made by `createCollection` when the
collection was absent. -/
def indexBefore (s : Store) (c : String) : Indexes :=
  if (assocGet c s.database).isNone then assocSet c [] s.indexes else s.indexes

/-- No field of the object has a name inherited from `Object.prototype`. -/
def plainKeys (o : Obj) : Bool := (keys o).all (fun k => !isProto k)

/-! ## Concrete stores used in the examples -/

/-- Options with saving enabled. -/
def exOptions : Options :=
  { backupEnabled := false, backupInterval := "1d", backupPath := "backups", saveToFile := true }

/-- A fresh store whose integrity check never raises. -/
def exEmpty : Store := emptyStore exOptions (fun _ => false)

/-- The document `{ username: "alice" }`. -/
def exAlice : Doc := [("username", Val.str "alice")]

/-- The store after `insertDocument("users", { username: "alice" })`, the
generated identifier being `u1`. -/
def exUsers : Store := (insertDocument exEmpty "users" exAlice "u1").1

/-- The document stored in `exUsers`. -/
def exAliceStored : Doc := [("username", Val.str "alice"), ("id", Val.str "u1")]

/-- The document `{ id: "" }`, whose identifier is falsy. -/
def exBlankId : Doc := [("id", Val.str "")]

/-- The patch `{ email: "a@x.com" }`. -/
def exEmail : Obj := [("email", Val.str "a@x.com")]

/-- Alice after the patch `exEmail`. -/
def exAliceUpdated : Doc :=
  [("username", Val.str "alice"), ("id", Val.str "u1"), ("email", Val.str "a@x.com")]

/-- The patch `{ score: NaN }`. -/
def exScore : Obj := [("score", Val.nan)]

/-- A first document named alice, with its own id. -/
def exA1 : Doc := [("id", Val.str "1"), ("username", Val.str "alice")]

/-- A second document named alice, with another id. -/
def exA2 : Doc := [("id", Val.str "2"), ("username", Val.str "alice")]

/-- The store after both documents named alice have been inserted. -/
def exTwo : Store :=
  runOps exEmpty [Op.insert "users" exA1 "u1", Op.insert "users" exA2 "u2"]

/-- The store `exTwo` after `deleteDocument("users", { id: "1" })`. -/
def exTwoDeleted : Store :=
  runOps exEmpty [Op.insert "users" exA1 "u1", Op.insert "users" exA2 "u2",
    Op.delete "users" [("id", Val.str "1")]]

/-- The store after the same object has been inserted twice: the first call
gives it the id `u1`, the second finds the id in place. -/
def exTwice : Store :=
  runOps exEmpty [Op.insert "users" exAlice "u1", Op.insert "users" exAliceStored "u2"]

/-- The patch `{ constructor: "x" }`, whose only name is inherited by every
plain object. -/
def exConstructorPatch : Obj := [("constructor", Val.str "x")]

/-- The document `{ toString: "x" }`. -/
def exToString : Doc := [("toString", Val.str "x")]

/-- The document `{ toString: "x" }` with the id given to it by
`insertDocument`. -/
def exToStringStored : Doc := [("toString", Val.str "x"), ("id", Val.str "u1")]

/-- The store after `insertDocument("users", { toString: "x" })`, a call
that throws after it has appended the document. -/
def exShadowed : Store := (insertDocument exEmpty "users" exToString "u1").1

/-! ## What a caller receives -/

/-- The value a call hands back, as a JavaScript value: `undefined` from a
method whose body has no `return` of a value, `null`, or a document. -/
inductive Returned where
  | undefined
  | null
  | document (d : Doc)
  deriving DecidableEq, Repr

/-- What the caller of `insertDocument` receives when the call returns; the
method has no `return` statement.  `none` when the call throws. -/
def insertReturned (r : Outcome Unit) : Option Returned :=
  match r.2 with
  | Except.ok () => some Returned.undefined
  | Except.error _ => none

/-- What the caller of `updateDocument` or `deleteDocument` receives when the
call returns: the document of the `return` statement, or `null`.  `none` when
the call throws. -/
def changeReturned (r : Outcome (Option Doc)) : Option Returned :=
  match r.2 with
  | Except.ok (some d) => some (Returned.document d)
  | Except.ok none => some Returned.null
  | Except.error _ => none

/-! ## Calls seen through the log -/

/-- The log entries of calling the listeners `ls`, in order, each with the
payload `p`. -/
def callsOf (p : Payload) (ls : List Listener) : List Effect :=
  ls.map (fun l => Effect.called l.tag p)

/-- The listeners that `forEach` gets to call among `ls`: all of them up to
and including the first one that throws on `p`. -/
def invoked (p : Payload) : List Listener → List Listener
  | [] => []
  | l :: ls => if l.throwsOn p then [l] else l :: invoked p ls

/-- The listeners registered for an event. -/
def listenersFor (s : Store) (event : String) : List Listener :=
  (assocGet event s.events).getD []

/-- A listener that never throws. -/
def exQuiet (tag : Nat) : Listener := { tag := tag, throwsOn := fun _ => false }

/-- A listener that always throws. -/
def exLoud (tag : Nat) : Listener := { tag := tag, throwsOn := fun _ => true }

/-- The store that holds alice, with three `documentUpdated` listeners, the
second of which throws. -/
def exListening : Store :=
  (onEvent (onEvent (onEvent exUsers "documentUpdated" (exQuiet 1)).1 "documentUpdated"
    (exLoud 2)).1 "documentUpdated" (exQuiet 3)).1

/-- The fresh store with one `documentInserted` listener, which never
throws. -/
def exWatched : Store := (onEvent exEmpty "documentInserted" (exQuiet 1)).1

/-! ## Stores built without deletions -/

/-- The index `ix` has a `Map` for the field `k` with an entry for the value
that `doc` holds there. -/
def holdsEntry (ix : FieldIndex) (doc : Doc) (k : String) : Bool :=
  match plainSlot k ix with
  | Slot.own m => (assocGet (getField doc k) m).isSome
  | _ => false

/-- Every field value of every document of `db` has an entry in the index
that `idx` holds for its collection. -/
def entriesHeldIn (db : Database) (idx : Indexes) : Bool :=
  db.all (fun e =>
    match assocGet e.1 idx with
    | none => false
    | some ix => e.2.all (fun doc => (keys doc).all (holdsEntry ix doc)))

/-- Every field value of every stored document has an index entry. -/
def entriesHeld (s : Store) : Bool := entriesHeldIn s.database s.indexes

/-- Whether a call is an `insertDocument` or an `updateDocument` whose
document or patch has no field under a name inherited from
`Object.prototype`. -/
def isPlainWrite : Op → Bool
  | .insert _ d _ => plainKeys d
  | .update _ _ u => plainKeys u
  | .delete _ _ => false

/-- Whether a call is an `insertDocument`. -/
def isInsert : Op → Bool
  | .insert _ _ _ => true
  | _ => false

/-- Two documents, the second without the field `a`. -/
def exWithA : Doc := [("id", Val.str "1"), ("a", Val.num 1)]

/-- A document without the field `a`. -/
def exWithoutA : Doc := [("id", Val.str "2")]

/-- A document whose field `a` holds `undefined`. -/
def exUndefinedA : Doc := [("id", Val.str "3"), ("a", Val.undefined)]

/-- The store after `exWithA` and `exWithoutA` have been inserted. -/
def exMixed : Store :=
  runOps exEmpty [Op.insert "users" exWithA "u1", Op.insert "users" exWithoutA "u2"]

/-- The store after `exUndefinedA` and `exWithoutA` have been inserted. -/
def exMixedUndefined : Store :=
  runOps exEmpty [Op.insert "users" exUndefinedA "u1", Op.insert "users" exWithoutA "u2"]

/-- The insertions of `{ toString: "x", id: "1" }` and of `{ a: 1, id: "2" }`
into `users`. -/
def exShadowThenPlain : List Op :=
  [Op.insert "users" [("toString", Val.str "x"), ("id", Val.str "1")] "u1",
    Op.insert "users" [("a", Val.num 1), ("id", Val.str "2")] "u2"]

/-- The insertions of `{ a: 1, id: "1" }` and of `{ toString: "x", a: 2,
id: "2" }` into `users`. -/
def exPlainThenShadow : List Op :=
  [Op.insert "users" [("a", Val.num 1), ("id", Val.str "1")] "u1",
    Op.insert "users" [("toString", Val.str "x"), ("a", Val.num 2), ("id", Val.str "2")] "u2"]

/-- The same store on a fresh `this.indexes` object. -/
def withoutIndexes (s : Store) : Store := { s with indexes := [] }

/-! ## The backup interval -/

/-- A JavaScript number that is a non-negative integer or `Infinity`, which is
what `parseInt` of a digit string and its products with positive integers
are. -/
inductive Amount where
  | finite (n : Nat)
  | infinity
  deriving DecidableEq, Repr

/-- The number of binary digits of `n`, counted with `fuel` halvings. -/
def bitLengthAux : Nat → Nat → Nat
  | 0, _ => 0
  | fuel + 1, n => if n = 0 then 0 else bitLengthAux fuel (n / 2) + 1

/-- The number of binary digits of `n`. -/
def bitLength (n : Nat) : Nat := bitLengthAux n n

/-- The double that represents the natural number `n`: `n` itself below
`2^53 = 9007199254740992`, otherwise `n` rounded to 53 significant binary
digits, to nearest and ties to even, and `Infinity` when the rounded number
has more than 1024 binary digits, that is, from `2^1024` on. -/
def toDouble (n : Nat) : Amount :=
  if n < 9007199254740992 then Amount.finite n
  else
    let e := bitLength n - 53
    let q := n / 2 ^ e
    let r := n % 2 ^ e
    let half := 2 ^ (e - 1)
    let rounded := if half < r ∨ (r = half ∧ q % 2 = 1) then q + 1 else q
    if 1024 < bitLength (rounded * 2 ^ e) then Amount.infinity
    else Amount.finite (rounded * 2 ^ e)

/-- The product `a * k` of a number with a positive integer constant, rounded
as every floating-point product is. -/
def Amount.mul (a : Amount) (k : Nat) : Amount :=
  match a with
  | Amount.infinity => Amount.infinity
  | Amount.finite n => toDouble (n * k)

/-- The call `parseInt(digits)` on a string of decimal digits. -/
def parseInt (digits : List Char) : Amount := toDouble (digitsValue digits)

/-- The units of the interval string. -/
def unitChars : List Char := ['s', 'm', 'h', 'd']

/-- The match of `/^(\d+)([smhd])$/`: the longest run of digits at the start,
which must not be empty, then one unit character, then the end of the string.
The two capture groups are returned. -/
def matchInterval (s : String) : Option (List Char × Char) :=
  match s.data.dropWhile Char.isDigit with
  | [u] =>
    if s.data.takeWhile Char.isDigit ≠ [] ∧ u ∈ unitChars then
      some (s.data.takeWhile Char.isDigit, u)
    else none
  | _ => none

/-- The error `new Error('Intervalo de backup inválido')`. -/
inductive IntervalError where
  | invalid
  deriving DecidableEq, Repr

/-- The method `getBackupInterval`, on the option `backupInterval`. -/
def getBackupInterval (backupInterval : String) : Except IntervalError Amount :=
  match matchInterval backupInterval with
  | none => Except.error IntervalError.invalid
  | some (digits, unit) =>
    let amount := parseInt digits
    if unit = 's' then Except.ok (amount.mul 1000)
    else if unit = 'm' then Except.ok ((amount.mul 60).mul 1000)
    else if unit = 'h' then Except.ok (((amount.mul 60).mul 60).mul 1000)
    else if unit = 'd' then Except.ok ((((amount.mul 24).mul 60).mul 60).mul 1000)
    else Except.error IntervalError.invalid

/-- The interval strings in the specification's words: one or more decimal
digits followed by a single character from `s`, `m`, `h`, `d`. -/
def IsIntervalString (s : String) : Prop :=
  ∃ (ds : List Char) (u : Char), s.data = ds ++ [u] ∧ ds ≠ [] ∧
    (∀ c ∈ ds, c.isDigit = true) ∧ u ∈ unitChars

/-- The milliseconds in one unit: second, minute, hour, day. -/
def unitFactor (u : Char) : Nat :=
  if u = 's' then 1000
  else if u = 'm' then 60 * 1000
  else if u = 'h' then 60 * 60 * 1000
  else 24 * 60 * 60 * 1000

/-! ## Construction: loading the file and scheduling the backup -/

/-- A value produced by `JSON.parse`.  Numbers are represented by integers, as
in `Val`.  An object is the list of its own properties: `JSON.parse` defines
every member as an own property, also under a name such as `__proto__`. -/
inductive Json where
  | null
  | bool (b : Bool)
  | num (n : Int)
  | str (s : String)
  | arr (items : List Json)
  | obj (fields : List (String × Json))

/-- What the file system answers for the database file: `existsSync` is false;
or it is true and `readFileSync` throws; or the text is read. -/
inductive FileRead where
  | missing
  | unreadable
  | text (data : String)

/-- The exceptions that can arise inside the `try` block of `loadFromFile`. -/
inductive LoadError where
  | readFailed
  | syntaxError
  | typeError
  deriving DecidableEq, Repr

/-- Whether a value is an array, the only kind of value that has `forEach`. -/
def Json.isArray : Json → Bool
  | Json.arr _ => true
  | _ => false

/-- The values `this.database[collectionName]` that the outer loop of
`buildIndexes` visits, in order: the property values of an object, the items
of an array, the characters of a string; nothing for `null`, a boolean or a
number. -/
def Json.collections : Json → List Json
  | Json.obj fields => (ownKeys fields).map (fun k => (assocGet k fields).getD Json.null)
  | Json.arr items => items
  | Json.str s => s.data.map (fun c => Json.str c.toString)
  | _ => []

/-- Whether the call `this.database.hasOwnProperty(collectionName)` is a
`TypeError`: the parsed object has a member named `hasOwnProperty`, whose
value is data. -/
def Json.shadowsHasOwnProperty : Json → Bool
  | Json.obj fields => NoDB.shadowsHasOwnProperty fields
  | _ => false

/-- Whether the callback of `forEach` throws on the document `doc`.  On an
object it does at the first member whose name is inherited from
`Object.prototype`: `doc.hasOwnProperty(key)` is a `TypeError` when the name
is `hasOwnProperty`, and under any other such name
`this.indexes[collectionName][key]` is the inherited function, which has no
`set`.  On an array or a string the keys are indices and nothing throws; on
`null`, a boolean or a number the loop has nothing to enumerate. -/
def docThrows : Json → Bool
  | Json.obj fields => (fields.map Prod.fst).any isProto
  | _ => false

/-- Whether the turn of the outer loop throws on the value of one collection:
`forEach` is a `TypeError` unless the value is an array, and on an array the
callback may throw. -/
def collectionThrows : Json → Bool
  | Json.arr docs => docs.any docThrows
  | _ => true

/-- Whether `buildIndexes` throws on the database `j`. -/
def buildIndexesThrows (j : Json) : Bool :=
  j.shadowsHasOwnProperty || j.collections.any collectionThrows

/-- The fields of the instance that `loadFromFile` bears on: `this.database`,
whether the data file was written, and the exception caught and logged by
the `catch` clause.  The index objects are not part of this record. -/
structure Loaded where
  database : Json
  wrote : Bool
  caught : Option LoadError

/-- The `try` block of `loadFromFile`, started with `this.database = prior`:
the database it leaves, whether it wrote the file, and the exception it
throws, if any.  `parse` is `JSON.parse`, `none` for a `SyntaxError`. -/
def loadBody (prior : Json) (saveOption : Bool) (file : FileRead)
    (parse : String → Option Json) : Json × Bool × Option LoadError :=
  match file with
  | FileRead.missing => (prior, saveOption, none)
  | FileRead.unreadable => (prior, false, some LoadError.readFailed)
  | FileRead.text data =>
    match parse data with
    | none => (prior, false, some LoadError.syntaxError)
    | some j =>
      if buildIndexesThrows j then (j, false, some LoadError.typeError) else (j, false, none)

/-- The method `loadFromFile`: the `try` block, then the `catch` clause, which
logs the exception and throws nothing.  The second component is the exception
that leaves the method. -/
def loadFromFile (prior : Json) (saveOption : Bool) (file : FileRead)
    (parse : String → Option Json) : Loaded × Option LoadError :=
  match loadBody prior saveOption file parse with
  | (database, wrote, none) => ({ database := database, wrote := wrote, caught := none }, none)
  | (database, wrote, some e) =>
    ({ database := database, wrote := wrote, caught := some e }, none)

/-- The options as the caller passes them: any of them may be left out. -/
structure UserOptions where
  backupEnabled : Option Bool
  backupInterval : Option String
  backupPath : Option String
  saveToFile : Option Bool

/-- The constant `defaultOptions`; `backupsDir` is `path.join(__dirname, 'backups')`. -/
def defaultOptions (backupsDir : String) : Options :=
  { backupEnabled := true, backupInterval := "1d", backupPath := backupsDir, saveToFile := true }

/-- The object `{ ...defaultOptions, ...options }`. -/
def mergeOptions (backupsDir : String) (u : UserOptions) : Options :=
  { backupEnabled := u.backupEnabled.getD (defaultOptions backupsDir).backupEnabled,
    backupInterval := u.backupInterval.getD (defaultOptions backupsDir).backupInterval,
    backupPath := u.backupPath.getD (defaultOptions backupsDir).backupPath,
    saveToFile := u.saveToFile.getD (defaultOptions backupsDir).saveToFile }

/-- The method `setupBackup`: with backups enabled, the period handed to
`setInterval`, which is computed by `getBackupInterval` and may throw; no timer
otherwise. -/
def setupBackup (options : Options) : Except IntervalError (Option Amount) :=
  if options.backupEnabled then
    match getBackupInterval options.backupInterval with
    | Except.error e => Except.error e
    | Except.ok period => Except.ok (some period)
  else Except.ok none

/-- A constructed instance: its options, its database after the load, and
the period of its backup timer, if it has one. -/
structure Instance where
  options : Options
  database : Json
  backupPeriod : Option Amount

/-- The constructor: merge the options, start from the empty database, load
the file, set up the backup.  An exception leaves no instance. -/
def construct (backupsDir : String) (u : UserOptions) (file : FileRead)
    (parse : String → Option Json) : Except IntervalError Instance :=
  let options := mergeOptions backupsDir u
  let loaded := (loadFromFile (Json.obj []) options.saveToFile file parse).1
  match setupBackup options with
  | Except.error e => Except.error e
  | Except.ok period =>
    Except.ok { options := options, database := loaded.database, backupPeriod := period }

/-- The user options `{ backupEnabled: false, backupInterval: "3x" }`. -/
def exDisabled : UserOptions :=
  { backupEnabled := some false, backupInterval := some "3x", backupPath := none,
    saveToFile := none }

/-- The user options `{ backupInterval: "3x" }`. -/
def exBadInterval : UserOptions :=
  { backupEnabled := none, backupInterval := some "3x", backupPath := none, saveToFile := none }

/-- The parsed content of the file `{"users": 5}`. -/
def exBadShape : Json := Json.obj [("users", Json.num 5)]

/-- The parsed content of the file `{"users": [{"hasOwnProperty": 1}]}`. -/
def exBadDocument : Json :=
  Json.obj [("users", Json.arr [Json.obj [("hasOwnProperty", Json.num 1)]])]

/-! ## Association lists -/

section Assoc
variable {κ α : Type} [DecidableEq κ]

@[simp] theorem assocGet_nil (k : κ) : assocGet k ([] : List (κ × α)) = none := rfl

@[simp] theorem assocGet_assocSet_self (k : κ) (v : α) (l : List (κ × α)) :
    assocGet k (assocSet k v l) = some v := by
  induction l with
  | nil => simp [assocSet, assocGet]
  | cons e t ih =>
    by_cases h : e.1 = k
    · simp [assocSet, assocGet, h]
    · simp [assocSet, assocGet, h, ih]

theorem assocGet_assocSet_ne {k k' : κ} (h : k' ≠ k) (v : α) (l : List (κ × α)) :
    assocGet k' (assocSet k v l) = assocGet k' l := by
  induction l with
  | nil => simp [assocSet, assocGet, Ne.symm h]
  | cons e t ih =>
    by_cases h1 : e.1 = k
    · have h2 : ¬ e.1 = k' := fun h3 => h (h3.symm.trans h1)
      simp [assocSet, assocGet, h1, h2, Ne.symm h]
    · by_cases h2 : e.1 = k'
      · simp [assocSet, assocGet, h1, if_pos h2]
      · simp [assocSet, assocGet, h1, h2, ih]

theorem assocGet_assocSet (k k' : κ) (v : α) (l : List (κ × α)) :
    assocGet k' (assocSet k v l) = if k' = k then some v else assocGet k' l := by
  by_cases h : k' = k
  · subst h; simp
  · simp [h, assocGet_assocSet_ne h]

@[simp] theorem assocGet_assocDel_self (k : κ) (l : List (κ × α)) :
    assocGet k (assocDel k l) = none := by
  induction l with
  | nil => rfl
  | cons e t ih =>
    by_cases h : e.1 = k
    · simpa [assocDel, List.filter, h] using ih
    · simpa [assocDel, List.filter, h, assocGet] using ih

theorem assocGet_assocDel_ne {k k' : κ} (h : k' ≠ k) (l : List (κ × α)) :
    assocGet k' (assocDel k l) = assocGet k' l := by
  induction l with
  | nil => rfl
  | cons e t ih =>
    by_cases h1 : e.1 = k
    · have h2 : ¬ e.1 = k' := fun h3 => h (h3.symm.trans h1)
      have h3 : assocDel k (e :: t) = assocDel k t := by simp [assocDel, List.filter, h1]
      rw [h3, ih]; simp [assocGet, h2]
    · have h3 : assocDel k (e :: t) = e :: assocDel k t := by simp [assocDel, List.filter, h1]
      rw [h3]
      by_cases h2 : e.1 = k'
      · simp [assocGet, if_pos h2]
      · simp [assocGet, h2, ih]

theorem assocSet_assocSet_self (k : κ) (v : α) (l : List (κ × α)) :
    assocSet k v (assocSet k v l) = assocSet k v l := by
  induction l with
  | nil => simp [assocSet]
  | cons e t ih =>
    by_cases h : e.1 = k
    · simp [assocSet, h]
    · simp [assocSet, h, ih]

theorem assocDel_assocDel_self (k : κ) (l : List (κ × α)) :
    assocDel k (assocDel k l) = assocDel k l := by
  simp [assocDel, List.filter_filter]

theorem assocGet_isSome_iff (k : κ) (l : List (κ × α)) :
    (assocGet k l).isSome = true ↔ k ∈ l.map Prod.fst := by
  induction l with
  | nil => simp
  | cons e t ih =>
    by_cases h : e.1 = k
    · simp [assocGet, h]
    · have h2 : ¬ k = e.1 := fun h3 => h h3.symm
      simp [assocGet, h, h2, ih]

theorem map_fst_assocSet_mem (k k' : κ) (v : α) (l : List (κ × α)) :
    k' ∈ (assocSet k v l).map Prod.fst ↔ k' = k ∨ k' ∈ l.map Prod.fst := by
  rw [← assocGet_isSome_iff, ← assocGet_isSome_iff, assocGet_assocSet]
  by_cases h : k' = k <;> simp [h]

end Assoc

/-! ## Enumeration order and inherited names -/

theorem mem_insertKey (k x : String) (l : List String) :
    x ∈ insertKey k l ↔ x = k ∨ x ∈ l := by
  induction l with
  | nil => simp [insertKey]
  | cons h t ih =>
    by_cases hle : digitsValue k.data ≤ digitsValue h.data
    · simp [insertKey, hle]
    · simp only [insertKey, hle, if_false, List.mem_cons, ih]
      tauto

theorem mem_sortKeys (x : String) (l : List String) : x ∈ sortKeys l ↔ x ∈ l := by
  induction l with
  | nil => simp [sortKeys]
  | cons k t ih => simp [sortKeys, mem_insertKey, ih]

/-- Enumeration reorders the own property names and loses none. -/
theorem mem_ownKeys {α : Type} (o : List (String × α)) (k : String) :
    k ∈ ownKeys o ↔ k ∈ o.map Prod.fst := by
  unfold ownKeys
  rw [List.mem_append, mem_sortKeys, List.mem_filter, List.mem_filter]
  by_cases h : isIndexKey k = true
  · simp [h]
  · simp [h]

theorem ownKeys_singleton {α : Type} (k : String) (v : α) : ownKeys [(k, v)] = [k] := by
  unfold ownKeys
  by_cases h : isIndexKey k = true
  · simp [h, sortKeys, insertKey]
  · simp [h, sortKeys]

theorem keys_singleton (k : String) (v : Val) : keys [(k, v)] = [k] := ownKeys_singleton k v

theorem isProto_iff (k : String) : isProto k = true ↔ k ∈ protoNames := by
  unfold isProto
  rw [List.any_eq_true]
  constructor
  · rintro ⟨n, hn, he⟩
    have : n = k := by simpa using he
    exact this ▸ hn
  · intro h
    exact ⟨k, h, by simp⟩

theorem slot_of_some {α : Type} (k : String) (o : List (String × α)) (a : α)
    (h : assocGet k o = some a) : slot k o = Slot.own a := by
  unfold slot
  rw [h]

theorem slot_of_none {α : Type} (k : String) (o : List (String × α))
    (h : assocGet k o = none) (hk : isProto k = false) : slot k o = Slot.absent := by
  unfold slot
  rw [h, hk]
  rfl

theorem slot_inherited {α : Type} (k : String) (o : List (String × α))
    (h : assocGet k o = none) (hk : isProto k = true) : slot k o = Slot.inherited := by
  unfold slot
  rw [h, hk]
  rfl

theorem slot_eq_own {α : Type} (k : String) (o : List (String × α)) (a : α)
    (h : slot k o = Slot.own a) : assocGet k o = some a := by
  unfold slot at h
  cases hg : assocGet k o with
  | some b =>
    rw [hg] at h
    simp only [Slot.own.injEq] at h
    rw [h]
  | none =>
    rw [hg] at h
    by_cases hk : isProto k = true
    · simp [hk] at h
    · simp [hk] at h

theorem plainSlot_of_some {α : Type} (k : String) (o : List (String × α)) (a : α)
    (h : assocGet k o = some a) (hk : isProto k = false) : plainSlot k o = Slot.own a := by
  unfold plainSlot
  rw [hk, h]
  rfl

theorem plainSlot_of_none {α : Type} (k : String) (o : List (String × α))
    (h : assocGet k o = none) (hk : isProto k = false) : plainSlot k o = Slot.absent := by
  unfold plainSlot
  rw [hk, h]
  rfl

theorem plainSlot_inherited {α : Type} (k : String) (o : List (String × α))
    (hk : isProto k = true) : plainSlot k o = Slot.inherited := by
  unfold plainSlot
  rw [hk]
  rfl

theorem plainSlot_eq_own {α : Type} (k : String) (o : List (String × α)) (a : α)
    (h : plainSlot k o = Slot.own a) : isProto k = false ∧ assocGet k o = some a := by
  unfold plainSlot at h
  by_cases hk : isProto k = true
  · simp [hk] at h
  · have hk2 : isProto k = false := by simpa using hk
    refine ⟨hk2, ?_⟩
    rw [hk2] at h
    cases hg : assocGet k o with
    | some b =>
      rw [hg] at h
      simp only [Bool.false_eq_true, if_false, Slot.own.injEq] at h
      rw [h]
    | none =>
      rw [hg] at h
      simp at h

theorem hasMap_iff (ix : FieldIndex) (k : String) :
    hasMap ix k = true ↔ isProto k = false ∧ ∃ m, assocGet k ix = some m := by
  unfold hasMap
  constructor
  · intro h
    cases hs : plainSlot k ix with
    | own m =>
      obtain ⟨h1, h2⟩ := plainSlot_eq_own k ix m hs
      exact ⟨h1, m, h2⟩
    | inherited => rw [hs] at h; cases h
    | absent => rw [hs] at h; cases h
  · rintro ⟨hk, m, hm⟩
    rw [plainSlot_of_some k ix m hm hk]

theorem plainKeys_iff (o : Obj) : plainKeys o = true ↔ ∀ k ∈ keys o, isProto k = false := by
  unfold plainKeys
  rw [List.all_eq_true]
  constructor
  · intro h k hk
    simpa using h k hk
  · intro h k hk
    simpa using h k hk

/-- An object whose names are not inherited does not shadow `hasOwnProperty`. -/
theorem not_shadows_of_plain {α : Type} (o : List (String × α))
    (h : ∀ k ∈ ownKeys o, isProto k = false) : shadowsHasOwnProperty o = false := by
  unfold shadowsHasOwnProperty
  rw [decide_eq_false_iff_not]
  intro hmem
  have := h _ hmem
  revert this
  decide

/-! ## Objects, spread and `findIndex` -/

theorem getField_assocSet (o : Obj) (k k' : String) (v : Val) :
    getField (assocSet k v o) k' = if k' = k then v else getField o k' := by
  unfold getField
  rw [assocGet_assocSet]
  by_cases h : k' = k <;> simp [h]

theorem mem_keys_iff (o : Obj) (k : String) : k ∈ keys o ↔ (assocGet k o).isSome = true := by
  unfold keys
  rw [mem_ownKeys]
  exact (assocGet_isSome_iff k o).symm

theorem mem_keys_assocSet (o : Obj) (k k' : String) (v : Val) :
    k' ∈ keys (assocSet k v o) ↔ k' = k ∨ k' ∈ keys o := by
  unfold keys
  rw [mem_ownKeys, mem_ownKeys]
  exact map_fst_assocSet_mem k k' v o

theorem not_mem_keys_nil (k : String) : k ∉ keys [] := by
  intro h
  rw [mem_keys_iff] at h
  cases h

theorem getField_foldl_assign (src : Obj) (ks : List String) (t : Obj) (k : String) :
    getField (ks.foldl (fun t k => assocSet k (getField src k) t) t) k =
      if k ∈ ks then getField src k else getField t k := by
  induction ks generalizing t with
  | nil => simp
  | cons a ks ih =>
    rw [List.foldl_cons, ih, getField_assocSet]
    by_cases h1 : k ∈ ks
    · simp [h1]
    · by_cases h2 : k = a
      · subst h2; simp [h1]
      · simp [h1, h2]

theorem mem_keys_foldl_assign (src : Obj) (ks : List String) (t : Obj) (k : String) :
    k ∈ keys (ks.foldl (fun t k => assocSet k (getField src k) t) t) ↔ k ∈ ks ∨ k ∈ keys t := by
  induction ks generalizing t with
  | nil => simp
  | cons a ks ih =>
    rw [List.foldl_cons, ih, mem_keys_assocSet]
    simp only [List.mem_cons]
    tauto

theorem getField_assign (t src : Obj) (k : String) :
    getField (assign t src) k = if k ∈ keys src then getField src k else getField t k :=
  getField_foldl_assign src (keys src) t k

theorem mem_keys_assign (t src : Obj) (k : String) :
    k ∈ keys (assign t src) ↔ k ∈ keys src ∨ k ∈ keys t :=
  mem_keys_foldl_assign src (keys src) t k

theorem getField_of_not_mem_keys (o : Obj) (k : String) (h : k ∉ keys o) :
    getField o k = Val.undefined := by
  rw [mem_keys_iff] at h
  unfold getField
  cases hg : assocGet k o with
  | none => rfl
  | some v => simp [hg] at h

/-- In `{ ...a, ...b }` the fields of `b` win and the other fields of `a` are kept. -/
theorem getField_merge (a b : Obj) (k : String) :
    getField (merge a b) k = if k ∈ keys b then getField b k else getField a k := by
  unfold merge
  rw [getField_assign, getField_assign]
  by_cases h1 : k ∈ keys b
  · simp [h1]
  · by_cases h2 : k ∈ keys a
    · simp [h1, h2]
    · rw [if_neg h1, if_neg h2, if_neg h1, getField_of_not_mem_keys a k h2]
      rfl

/-- The keys of `{ ...a, ...b }` are those of `a` and those of `b`. -/
theorem mem_keys_merge (a b : Obj) (k : String) :
    k ∈ keys (merge a b) ↔ k ∈ keys a ∨ k ∈ keys b := by
  unfold merge
  rw [mem_keys_assign, mem_keys_assign]
  have := not_mem_keys_nil k
  tauto

theorem strictEq_eq_true_iff (a b : Val) : strictEq a b = true ↔ a ≠ Val.nan ∧ a = b := by
  unfold strictEq
  by_cases h : a = Val.nan <;> simp [h]

theorem strictEq_self (a : Val) (h : a ≠ Val.nan) : strictEq a a = true := by
  rw [strictEq_eq_true_iff]; exact ⟨h, rfl⟩

/-- On a property that the object has of its own the test `o[k] === v`
compares the property's value. -/
theorem fieldEq_of_mem (o : Obj) (k : String) (v : Val) (h : k ∈ keys o) :
    fieldEq o k v = strictEq (getField o k) v := by
  rw [mem_keys_iff] at h
  obtain ⟨a, ha⟩ := Option.isSome_iff_exists.mp h
  unfold fieldEq readField getField
  rw [ha]
  rfl

/-- Under a name that is not inherited the test `o[k] === v` compares the
property's value, `undefined` when there is no such property. -/
theorem fieldEq_of_not_proto (o : Obj) (k : String) (v : Val) (h : isProto k = false) :
    fieldEq o k v = strictEq (getField o k) v := by
  unfold fieldEq readField getField
  cases ha : assocGet k o with
  | some a => rfl
  | none => simp [h]

section FindIndex
variable {α : Type}

theorem findIndex_eq_none_iff (p : α → Bool) (l : List α) :
    findIndex p l = none ↔ ∀ a ∈ l, p a = false := by
  induction l with
  | nil => simp [findIndex]
  | cons a t ih =>
    by_cases h : p a = true
    · simp [findIndex, h]
    · simp [findIndex, h, ih]

/-- The index found is the first position whose element satisfies the test. -/
theorem findIndex_eq_some (p : α → Bool) (l : List α) (i : Nat) (h : findIndex p l = some i) :
    ∃ a, l[i]? = some a ∧ p a = true ∧ ∀ j, j < i → ∀ b, l[j]? = some b → p b = false := by
  induction l generalizing i with
  | nil => simp [findIndex] at h
  | cons a t ih =>
    by_cases hp : p a = true
    · simp [findIndex, hp] at h
      subst h
      exact ⟨a, by simp, hp, by intro j hj; omega⟩
    · simp [findIndex, hp] at h
      obtain ⟨i', hi', rfl⟩ := h
      obtain ⟨b, hb, hpb, hlt⟩ := ih i' hi'
      refine ⟨b, by simpa using hb, hpb, ?_⟩
      intro j hj c hc
      cases j with
      | zero => simp at hc; subst hc; simpa using hp
      | succ j => exact hlt j (by omega) c (by simpa using hc)

end FindIndex

/-! ## Well-formed stores -/

theorem assocGet_of_mem_fst {κ α : Type} [DecidableEq κ] (k : κ) (v : α) (l : List (κ × α))
    (h : assocGet k l = some v) : (k, v) ∈ l := by
  induction l with
  | nil => simp at h
  | cons e t ih =>
    by_cases h1 : e.1 = k
    · simp [assocGet, h1] at h
      have : e = (k, v) := by rw [← h1, ← h]
      simp [this]
    · simp [assocGet, h1] at h
      exact List.mem_cons_of_mem _ (ih h)

theorem indexObject_of_hasIndexObjects (s : Store) (h : hasIndexObjects s = true) (c : String)
    (coll : List Doc) (hc : assocGet c s.database = some coll) :
    ∃ ix, assocGet c s.indexes = some ix := by
  have hmem := assocGet_of_mem_fst c coll s.database hc
  unfold hasIndexObjects at h
  rw [List.all_eq_true] at h
  have := h c (List.mem_map.mpr ⟨(c, coll), hmem, rfl⟩)
  exact Option.isSome_iff_exists.mp this

theorem indexedIn_iff (db : Database) (idx : Indexes) :
    indexedIn db idx = true ↔
      ∀ e ∈ db, ∃ ix, assocGet e.1 idx = some ix ∧
        ∀ doc ∈ e.2, ∀ k ∈ keys doc, hasMap ix k = true := by
  unfold indexedIn
  rw [List.all_eq_true]
  constructor
  · intro h e he
    have h1 := h e he
    cases hix : assocGet e.1 idx with
    | none => rw [hix] at h1; cases h1
    | some ix =>
      rw [hix] at h1
      refine ⟨ix, rfl, ?_⟩
      intro doc hdoc k hk
      simp only [List.all_eq_true] at h1
      exact h1 doc hdoc k hk
  · intro h e he
    obtain ⟨ix, hix, hall⟩ := h e he
    rw [hix]
    simp only [List.all_eq_true]
    exact hall

theorem fieldMap_of_fieldsIndexed (s : Store) (h : fieldsIndexed s = true) (c : String)
    (coll : List Doc) (hc : assocGet c s.database = some coll) :
    ∃ ix, assocGet c s.indexes = some ix ∧
      ∀ doc ∈ coll, ∀ k ∈ keys doc, hasMap ix k = true :=
  (indexedIn_iff _ _).mp h (c, coll) (assocGet_of_mem_fst c coll s.database hc)

/-! ## Emission and saving leave the data alone -/

theorem runListeners_ok (p : Payload) (ls : List Listener) (log : List Effect)
    (h : ∀ l ∈ ls, l.throwsOn p = false) : (runListeners p ls log).2 = none := by
  induction ls generalizing log with
  | nil => rfl
  | cons l ls ih =>
    have hl : l.throwsOn p = false := h l (List.mem_cons_self _ _)
    simp only [runListeners, hl]
    exact ih _ (fun x hx => h x (List.mem_cons_of_mem _ hx))

/-- Under an event name that is not inherited, `emit` runs the listeners
registered for the event. -/
theorem emit_eq (s : Store) (event : String) (p : Payload) (he : isProto event = false) :
    emit s event p =
      ({ s with log := (runListeners p (listenersFor s event) s.log).1 },
        (runListeners p (listenersFor s event) s.log).2) := by
  unfold emit listenersFor
  cases hl : assocGet event s.events with
  | none => rw [plainSlot_of_none event s.events hl he]; rfl
  | some ls => rw [plainSlot_of_some event s.events ls hl he]; rfl

theorem emit_fields (s : Store) (event : String) (p : Payload) :
    (emit s event p).1.database = s.database ∧ (emit s event p).1.indexes = s.indexes ∧
    (emit s event p).1.events = s.events ∧ (emit s event p).1.options = s.options ∧
    (emit s event p).1.checkIntegrity = s.checkIntegrity := by
  unfold emit
  cases plainSlot event s.events <;> simp

theorem emit_ok (s : Store) (event : String) (p : Payload) (he : isProto event = false)
    (h : ∀ l ∈ listenersFor s event, l.throwsOn p = false) :
    (emit s event p).2 = none := by
  rw [emit_eq s event p he]
  exact runListeners_ok p _ s.log h

theorem saveChanges_fields (s : Store) :
    (saveChanges s).1.database = s.database ∧ (saveChanges s).1.indexes = s.indexes ∧
    (saveChanges s).1.events = s.events ∧ (saveChanges s).1.options = s.options ∧
    (saveChanges s).1.checkIntegrity = s.checkIntegrity := by
  unfold saveChanges saveToFile
  by_cases h1 : s.options.saveToFile = true <;> by_cases h2 : s.checkIntegrity s.database = true <;>
    simp [h1, h2]

theorem saveChanges_ok (s : Store) (h : s.checkIntegrity s.database = false) :
    (saveChanges s).2 = none := by
  unfold saveChanges
  simp [h]

theorem emitAndSave_fields {α : Type} (s : Store) (event : String) (p : Payload) (ret : α) :
    (emitAndSave s event p ret).1.database = s.database ∧
    (emitAndSave s event p ret).1.indexes = s.indexes ∧
    (emitAndSave s event p ret).1.events = s.events ∧
    (emitAndSave s event p ret).1.options = s.options ∧
    (emitAndSave s event p ret).1.checkIntegrity = s.checkIntegrity := by
  have he := emit_fields s event p
  have hs := saveChanges_fields (emit s event p).1
  unfold emitAndSave
  rcases hemit : emit s event p with ⟨s1, _ | e⟩
  · rw [hemit] at he hs
    simp only at he hs ⊢
    rcases hsave : saveChanges s1 with ⟨s2, _ | e2⟩ <;> rw [hsave] at hs <;> simp only at hs ⊢ <;>
      exact ⟨hs.1.trans he.1, hs.2.1.trans he.2.1, hs.2.2.1.trans he.2.2.1,
        hs.2.2.2.1.trans he.2.2.2.1, hs.2.2.2.2.trans he.2.2.2.2⟩
  · rw [hemit] at he
    simpa using he

theorem emitAndSave_returns {α : Type} (s s' : Store) (event : String) (p : Payload)
    (ret x : α) (h : emitAndSave s event p ret = (s', Except.ok x)) :
    x = ret ∧ s'.database = s.database ∧ s'.indexes = s.indexes := by
  have hf := emitAndSave_fields s event p ret
  rw [h] at hf
  refine ⟨?_, hf.1, hf.2.1⟩
  unfold emitAndSave at h
  rcases hemit : emit s event p with ⟨s1, _ | e⟩
  · rw [hemit] at h
    simp only at h
    rcases hsave : saveChanges s1 with ⟨s2, _ | e2⟩
    · rw [hsave] at h
      simp only [Prod.mk.injEq, Except.ok.injEq] at h
      exact h.2.symm
    · rw [hsave] at h
      simp at h
  · rw [hemit] at h
    simp at h

/-! ## Index maintenance -/

theorem assocSet_assocSet {κ α : Type} [DecidableEq κ] (k : κ) (v w : α) (l : List (κ × α)) :
    assocSet k v (assocSet k w l) = assocSet k v l := by
  induction l with
  | nil => simp [assocSet]
  | cons e t ih =>
    by_cases h : e.1 = k
    · simp [assocSet, h]
    · simp [assocSet, h, ih]

theorem assocSet_of_assocGet {κ α : Type} [DecidableEq κ] (k : κ) (v : α) (l : List (κ × α))
    (h : assocGet k l = some v) : assocSet k v l = l := by
  induction l with
  | nil => simp at h
  | cons e t ih =>
    by_cases h1 : e.1 = k
    · simp [assocGet, h1] at h
      simp only [assocSet, h1, if_true]
      rw [← h1, ← h]
    · simp [assocGet, h1] at h
      simp [assocSet, h1, ih h]

theorem assocGet_indexField (d : Doc) (ix : FieldIndex) (key k : String) :
    assocGet k (indexField d ix key) =
      if k = key then some (assocSet (getField d key) d ((assocGet key ix).getD []))
      else assocGet k ix := by
  unfold indexField
  rw [assocGet_assocSet]

theorem assocGet_foldl_indexField (d : Doc) (ks : List String) (ix : FieldIndex) (k : String) :
    assocGet k (ks.foldl (indexField d) ix) =
      if k ∈ ks then some (assocSet (getField d k) d ((assocGet k ix).getD []))
      else assocGet k ix := by
  induction ks generalizing ix with
  | nil => simp
  | cons a ks ih =>
    rw [List.foldl_cons, ih, assocGet_indexField]
    by_cases h1 : k = a
    · subst h1
      by_cases h2 : k ∈ ks
      · simp [h2, assocSet_assocSet_self]
      · simp [h2]
    · by_cases h2 : k ∈ ks
      · simp [h1, h2]
      · simp [h1, h2]

theorem assocGet_unindexField (d : Doc) (ix : FieldIndex) (key k : String) :
    assocGet k (unindexField d ix key) =
      if k = key then (assocGet key ix).map (assocDel (getField d key)) else assocGet k ix := by
  unfold unindexField
  cases hm : assocGet key ix with
  | none =>
    by_cases h : k = key
    · subst h; simp [hm]
    · simp [h]
  | some m =>
    simp only [Option.map_some']
    rw [assocGet_assocSet]

theorem assocGet_foldl_unindexField (d : Doc) (ks : List String) (ix : FieldIndex)
    (k : String) :
    assocGet k (ks.foldl (unindexField d) ix) =
      if k ∈ ks then (assocGet k ix).map (assocDel (getField d k)) else assocGet k ix := by
  induction ks generalizing ix with
  | nil => simp
  | cons a ks ih =>
    rw [List.foldl_cons, ih, assocGet_unindexField]
    by_cases h1 : k = a
    · subst h1
      by_cases h2 : k ∈ ks
      · cases hm : assocGet k ix <;> simp [h2, assocDel_assocDel_self]
      · simp [h2]
    · by_cases h2 : k ∈ ks
      · simp [h1, h2]
      · simp [h1, h2]

/-- A turn of `indexDocument` on an index object and a key that is not
inherited makes the two statements of the loop. -/
theorem indexStep_ok (c : String) (d : Doc) (idx : Indexes) (key : String) (fi : FieldIndex)
    (h : assocGet c idx = some fi) (hk : isProto key = false) :
    indexStep c d idx key = Except.ok (assocSet c (indexField d fi key) idx) := by
  unfold indexStep indexField
  cases hm : assocGet key fi with
  | none => simp only [slot_of_some c idx fi h, plainSlot_of_none key fi hm hk]; rfl
  | some m => simp only [slot_of_some c idx fi h, plainSlot_of_some key fi m hm hk]; rfl

/-- A turn of `indexDocument` that does not throw found an index object and
a key that is not inherited. -/
theorem indexStep_eq_ok (c : String) (d : Doc) (idx idx' : Indexes) (key : String)
    (h : indexStep c d idx key = Except.ok idx') :
    ∃ fi, assocGet c idx = some fi ∧ isProto key = false := by
  unfold indexStep at h
  cases hs : slot c idx with
  | absent => rw [hs] at h; cases h
  | inherited => rw [hs] at h; cases h
  | own fi =>
    refine ⟨fi, slot_eq_own c idx fi hs, ?_⟩
    by_cases hk : isProto key = true
    · rw [hs] at h
      simp only [plainSlot_inherited key fi hk] at h
      cases h
    · simpa using hk

theorem unindexStep_ok (c : String) (d : Doc) (idx : Indexes) (key : String) (fi : FieldIndex)
    (h : assocGet c idx = some fi) (hk : isProto key = false) :
    unindexStep c d idx key = Except.ok (assocSet c (unindexField d fi key) idx) := by
  unfold unindexStep unindexField
  cases hm : assocGet key fi with
  | none =>
    simp only [slot_of_some c idx fi h, plainSlot_of_none key fi hm hk]
    rw [assocSet_of_assocGet c fi idx h]
  | some m => simp only [slot_of_some c idx fi h, plainSlot_of_some key fi m hm hk]

/-- A loop whose turns all succeed on the index object of `c` leaves that
object changed turn by turn and throws nothing. -/
theorem stepAll_ok (c : String) (step : Indexes → String → Except Err Indexes)
    (f : FieldIndex → String → FieldIndex) (ks : List String)
    (hstep : ∀ idx key fi, key ∈ ks → assocGet c idx = some fi →
      step idx key = Except.ok (assocSet c (f fi key) idx))
    (idx : Indexes) (fi : FieldIndex) (h : assocGet c idx = some fi) :
    stepAll step ks idx = (assocSet c (ks.foldl f fi) idx, none) := by
  induction ks generalizing idx fi with
  | nil => simp [stepAll, assocSet_of_assocGet c fi idx h]
  | cons k ks ih =>
    simp only [stepAll, hstep idx k fi (List.mem_cons_self _ _) h]
    rw [ih (fun idx key fi hkey => hstep idx key fi (List.mem_cons_of_mem _ hkey))
      (assocSet c (f fi k) idx) (f fi k) (assocGet_assocSet_self _ _ _)]
    rw [assocSet_assocSet, List.foldl_cons]

/-- On a collection that has its index object, a document whose names are not
inherited is indexed field by field and nothing is thrown. -/
theorem indexDocument_eq (idx : Indexes) (c : String) (d : Doc) (ix : FieldIndex)
    (h : assocGet c idx = some ix) (hd : plainKeys d = true) :
    indexDocument idx c d = (assocSet c ((keys d).foldl (indexField d) ix) idx, none) := by
  have hk := (plainKeys_iff d).mp hd
  unfold indexDocument
  rw [not_shadows_of_plain d hk]
  simp only [Bool.false_eq_true, if_false]
  exact stepAll_ok c _ (indexField d) (keys d)
    (fun idx key fi hkey hfi => indexStep_ok c d idx key fi hfi (hk key hkey)) idx ix h

theorem removeDocumentFromIndex_eq (idx : Indexes) (c : String) (d : Doc) (ix : FieldIndex)
    (h : assocGet c idx = some ix) (hd : plainKeys d = true) :
    removeDocumentFromIndex idx c d =
      (assocSet c ((keys d).foldl (unindexField d) ix) idx, none) := by
  have hk := (plainKeys_iff d).mp hd
  unfold removeDocumentFromIndex
  rw [not_shadows_of_plain d hk]
  simp only [Bool.false_eq_true, if_false]
  exact stepAll_ok c _ (unindexField d) (keys d)
    (fun idx key fi hkey hfi => unindexStep_ok c d idx key fi hfi (hk key hkey)) idx ix h

/-- A loop of `indexDocument` that throws nothing over at least one key ran
on an index object and met no inherited key. -/
theorem stepAll_index_none (c : String) (d : Doc) (ks : List String) (idx idx' : Indexes)
    (h : stepAll (indexStep c d) ks idx = (idx', none)) (hne : ks ≠ []) :
    ∃ fi, assocGet c idx = some fi ∧ (∀ k ∈ ks, isProto k = false) ∧
      idx' = assocSet c (ks.foldl (indexField d) fi) idx := by
  induction ks generalizing idx with
  | nil => exact absurd rfl hne
  | cons k ks ih =>
    cases hs : indexStep c d idx k with
    | error e => simp [stepAll, hs] at h
    | ok idx1 =>
      obtain ⟨fi, hfi, hk⟩ := indexStep_eq_ok c d idx idx1 k hs
      rw [indexStep_ok c d idx k fi hfi hk] at hs
      have hidx1 : idx1 = assocSet c (indexField d fi k) idx := (Except.ok.inj hs).symm
      simp only [stepAll, indexStep_ok c d idx k fi hfi hk] at h
      by_cases hks : ks = []
      · subst hks
        simp only [stepAll, Prod.mk.injEq, and_true] at h
        refine ⟨fi, hfi, ?_, ?_⟩
        · intro x hx
          simp only [List.mem_singleton] at hx
          rw [hx]; exact hk
        · rw [← h]; rfl
      · obtain ⟨fi2, hfi2, hall, hres⟩ := ih _ h hks
        rw [assocGet_assocSet_self] at hfi2
        cases hfi2
        refine ⟨fi, hfi, ?_, ?_⟩
        · intro x hx
          rcases List.mem_cons.mp hx with rfl | hx
          · exact hk
          · exact hall x hx
        · rw [hres, assocSet_assocSet, List.foldl_cons]

/-- What an `indexDocument` that throws nothing has done. -/
theorem indexDocument_none (idx idx' : Indexes) (c : String) (d : Doc)
    (h : indexDocument idx c d = (idx', none)) :
    (keys d = [] ∧ idx' = idx) ∨
      ∃ ix, assocGet c idx = some ix ∧ plainKeys d = true ∧
        idx' = assocSet c ((keys d).foldl (indexField d) ix) idx := by
  unfold indexDocument at h
  by_cases hsh : shadowsHasOwnProperty d = true
  · simp [hsh] at h
  · have hsh2 : shadowsHasOwnProperty d = false := by simpa using hsh
    rw [hsh2] at h
    simp only [Bool.false_eq_true, if_false] at h
    by_cases hks : keys d = []
    · left
      rw [hks] at h
      simp only [stepAll, Prod.mk.injEq, and_true] at h
      exact ⟨hks, h.symm⟩
    · right
      obtain ⟨fi, hfi, hall, hres⟩ := stepAll_index_none c d (keys d) idx idx' h hks
      exact ⟨fi, hfi, (plainKeys_iff d).mpr hall, hres⟩

/-! ## `insertDocument` -/

theorem mem_keys_withId (d : Doc) (g : String) (k : String) :
    k ∈ keys (withId d g) → k = "id" ∨ k ∈ keys d := by
  unfold withId
  by_cases h : truthy (getField d "id") = true
  · rw [if_pos h]; exact Or.inr
  · rw [if_neg h, mem_keys_assocSet]; exact id

theorem plainKeys_withId (d : Doc) (g : String) (h : plainKeys d = true) :
    plainKeys (withId d g) = true := by
  rw [plainKeys_iff] at h ⊢
  intro k hk
  rcases mem_keys_withId d g k hk with rfl | hk
  · rfl
  · exact h k hk

/-- Under a collection name that the store has or that is not inherited,
`insertDocument` makes the collection when it is missing, appends the stored
document and indexes it; it goes on to emit and save when the indexing throws
nothing. -/
theorem insertDocument_eq (s : Store) (c : String) (d : Doc) (g : String)
    (hc : isProto c = false ∨ (assocGet c s.database).isSome = true) :
    insertDocument s c d g =
      match indexDocument (indexBefore s c) c (withId d g) with
      | (idx, some e) =>
        ({ s with
            database := assocSet c ((assocGet c s.database).getD [] ++ [withId d g]) s.database,
            indexes := idx }, Except.error e)
      | (idx, none) =>
        emitAndSave
          { s with
            database := assocSet c ((assocGet c s.database).getD [] ++ [withId d g]) s.database,
            indexes := idx }
          "documentInserted" (Payload.inserted c (withId d g)) () := by
  unfold insertDocument indexBefore
  cases hdb : assocGet c s.database with
  | none =>
    have hc2 : isProto c = false := by
      rcases hc with hc | hc
      · exact hc
      · rw [hdb] at hc; cases hc
    have hs : slot c s.database = Slot.absent := slot_of_none c s.database hdb hc2
    have hs2 : slot c (assocSet c ([] : List Doc) s.database) = Slot.own [] :=
      slot_of_some c _ [] (assocGet_assocSet_self _ _ _)
    simp only [hs, createCollection, hs2, assocSet_assocSet, Option.isNone_none, if_true,
      Option.getD_none, List.nil_append]
  | some coll =>
    have hs : slot c s.database = Slot.own coll := slot_of_some c s.database coll hdb
    simp only [hs, Option.isNone_some, Bool.false_eq_true, if_false, Option.getD_some]

/-- Under an inherited collection name that the store does not have,
`insertDocument` throws at `.push` and leaves the store as it was. -/
theorem insertDocument_inherited (s : Store) (c : String) (d : Doc) (g : String)
    (hc : isProto c = true) (hdb : assocGet c s.database = none) :
    insertDocument s c d g = (s, Except.error Err.typeError) := by
  unfold insertDocument
  simp only [slot_inherited c s.database hdb hc]

/-- The collection after `insertDocument`, whether the call returns or
throws: the stored document is appended. -/
theorem insertDocument_database (s : Store) (c : String) (d : Doc) (g : String)
    (hc : isProto c = false ∨ (assocGet c s.database).isSome = true) :
    (insertDocument s c d g).1.database =
      assocSet c ((assocGet c s.database).getD [] ++ [withId d g]) s.database := by
  rw [insertDocument_eq s c d g hc]
  rcases indexDocument (indexBefore s c) c (withId d g) with ⟨idx, _ | e⟩
  · exact (emitAndSave_fields _ _ _ _).1
  · rfl

theorem insertDocument_collection (s : Store) (c : String) (d : Doc) (g : String)
    (hc : isProto c = false ∨ (assocGet c s.database).isSome = true) :
    assocGet c (insertDocument s c d g).1.database =
      some ((assocGet c s.database).getD [] ++ [withId d g]) := by
  rw [insertDocument_database s c d g hc, assocGet_assocSet_self]

theorem insertDocument_indexes (s : Store) (c : String) (d : Doc) (g : String)
    (ix : FieldIndex) (hc : isProto c = false ∨ (assocGet c s.database).isSome = true)
    (hd : plainKeys d = true) (h : assocGet c (indexBefore s c) = some ix) :
    (insertDocument s c d g).1.indexes =
      assocSet c ((keys (withId d g)).foldl (indexField (withId d g)) ix) (indexBefore s c) := by
  rw [insertDocument_eq s c d g hc,
    indexDocument_eq (indexBefore s c) c (withId d g) ix h (plainKeys_withId d g hd)]
  exact (emitAndSave_fields _ _ _ _).2.1

theorem indexBefore_some (s : Store) (c : String) (hwf : hasIndexObjects s = true) :
    ∃ ix, assocGet c (indexBefore s c) = some ix := by
  unfold indexBefore
  cases hc : assocGet c s.database with
  | none => exact ⟨[], by simp⟩
  | some coll =>
    obtain ⟨ix, hix⟩ := indexObject_of_hasIndexObjects s hwf c coll hc
    exact ⟨ix, by simpa using hix⟩

/-! ## Queries -/

/-- The query for one pair `k: v` on a collection that has its documents and
an index object with a `Map` for `k`: the scan when the `Map` has an entry
for `v`, nothing otherwise. -/
theorem findDocuments_pair (s : Store) (c : String) (k : String) (v : Val)
    (coll : List Doc) (ix : FieldIndex) (m : ValMap)
    (hc : assocGet c s.database = some coll) (hix : assocGet c s.indexes = some ix)
    (hk : isProto k = false) (hm : assocGet k ix = some m) :
    findDocuments s c [(k, v)] =
      Except.ok (Found.docs
        (if (assocGet v m).isSome = true then
          coll.filter (fun doc => strictEq (getField doc k) v) else [])) := by
  have hsh : shadowsHasOwnProperty [(k, v)] = false := by
    apply not_shadows_of_plain
    intro x hx
    rw [ownKeys_singleton] at hx
    rw [List.mem_singleton.mp hx]
    exact hk
  have hf : getField [(k, v)] k = v := by simp [getField, assocGet]
  unfold findDocuments
  rw [slot_of_some c s.database coll hc]
  simp only [hsh, Bool.false_eq_true, if_false, keys_singleton, findLoop,
    slot_of_some c s.indexes ix hix, plainSlot_of_some k ix m hm hk, hf]
  by_cases hhas : (assocGet v m).isSome = true
  · simp only [hhas, if_true]
    congr 2
    apply List.filter_congr
    intro doc _
    exact fieldEq_of_not_proto doc k v hk
  · simp only [hhas, Bool.false_eq_true, if_false]

/-- The query with the empty filter on a collection that the store has. -/
theorem findDocuments_nil (s : Store) (c : String) (coll : List Doc)
    (hc : assocGet c s.database = some coll) :
    findDocuments s c [] = Except.ok (Found.docs coll) := by
  unfold findDocuments
  rw [slot_of_some c s.database coll hc]
  rfl

theorem filter_eq_nil_of_all_false {α : Type} (p : α → Bool) (l : List α)
    (h : ∀ a ∈ l, p a = false) : l.filter p = [] := by
  rw [List.filter_eq_nil_iff]
  intro a ha
  simp [h a ha]

/-! ## An unindexed filter key -/

/-- C1 fails on the code: the store holds only alice, whose document has no
`email` field, and `findDocuments("users", { email: "a@x.com" })` returns
her, although `alice.email === "a@x.com"` is false.  `updateDocument` and
`deleteDocument` with the same filter match no document and return `null`:
their scan tests every pair of the filter. -/
theorem findDocuments_ignores_unindexed_key :
    findDocuments exUsers "users" [("email", Val.str "a@x.com")] =
      Except.ok (Found.docs [exAliceStored]) ∧
    "email" ∈ keys [("email", Val.str "a@x.com")] ∧
    fieldEq exAliceStored "email" (getField [("email", Val.str "a@x.com")] "email") = false ∧
    matchesFilter [("email", Val.str "a@x.com")] exAliceStored = false ∧
    (updateDocument exUsers "users" [("email", Val.str "a@x.com")] exScore).2 =
      Except.ok none ∧
    (deleteDocument exUsers "users" [("email", Val.str "a@x.com")]).2 = Except.ok none :=
  ⟨by rfl, by decide, by rfl, by rfl, by rfl, by rfl⟩

/-! ## A collection name inherited from `Object.prototype` -/

/-- C3 fails on the code at the collection name `constructor`, which the
fresh store does not have: `findDocuments("constructor", {})` hands back the
value that `this.database` inherits under that name instead of the empty
sequence; `insertDocument("constructor", alice)` throws a `TypeError` at
`.push` and stores nothing, so that after the insertion the query still
hands back the inherited value and not the inserted document.  Under the
name `users` the same calls give the inserted document. -/
theorem findDocuments_inherited_collection :
    assocGet "constructor" exEmpty.database = none ∧
    findDocuments exEmpty "constructor" [] = Except.ok (Found.inherited "constructor") ∧
    insertDocument exEmpty "constructor" exAlice "u1" = (exEmpty, Except.error Err.typeError) ∧
    findDocuments (insertAll exEmpty "constructor" [(exAlice, "u1")]) "constructor" [] =
      Except.ok (Found.inherited "constructor") ∧
    findDocuments (insertAll exEmpty "users" [(exAlice, "u1")]) "users" [] =
      Except.ok (Found.docs [exAliceStored]) :=
  ⟨rfl, rfl, rfl, rfl, rfl⟩

/-! ## Finding what was just inserted -/

theorem withId_field (d : Doc) (g : String) (k : String) (v : Val) (hk : k ∈ keys d)
    (hv : strictEq (getField d k) v = true) (hid : k = "id" → truthy v = true) :
    k ∈ keys (withId d g) ∧ getField (withId d g) k = v := by
  have hv2 := ((strictEq_eq_true_iff _ _).mp hv).2
  unfold withId
  by_cases h : truthy (getField d "id") = true
  · rw [if_pos h]; exact ⟨hk, hv2⟩
  · rw [if_neg h]
    have hne : k ≠ "id" := by
      intro hkid
      apply h
      rw [← hkid, hv2]
      exact hid hkid
    rw [mem_keys_assocSet, getField_assocSet, if_neg hne]
    exact ⟨Or.inr hk, hv2⟩

/-- C4 (as amended): let the collection name `c` and the field names of `d`
not be inherited from `Object.prototype`, let `d` have an own field `k` with
`d[k] === v`, where `v` is truthy in case `k` is `id`, and let no document
of `c` have `doc[k] === v`.  Then after `insertDocument(c, d)`,
`findDocuments(c, {k: v})` returns exactly the stored document, `d` with its
id. -/
theorem findDocuments_after_insert (s : Store) (c : String) (d : Doc) (g : String)
    (k : String) (v : Val) (hwf : hasIndexObjects s = true) (hc : isProto c = false)
    (hd : plainKeys d = true) (hk : k ∈ keys d)
    (hv : strictEq (getField d k) v = true) (hid : k = "id" → truthy v = true)
    (hnone : ∀ doc ∈ (assocGet c s.database).getD [], fieldEq doc k v = false) :
    findDocuments (insertDocument s c d g).1 c [(k, v)] =
      Except.ok (Found.docs [withId d g]) := by
  obtain ⟨hkD, hvD⟩ := withId_field d g k v hk hv hid
  obtain ⟨ix, hix⟩ := indexBefore_some s c hwf
  have hkp : isProto k = false := (plainKeys_iff d).mp hd k hk
  have hdb := insertDocument_collection s c d g (Or.inl hc)
  have hidx := insertDocument_indexes s c d g ix (Or.inl hc) hd hix
  have hself : strictEq (getField (withId d g) k) v = true := by
    obtain ⟨hn, he⟩ := (strictEq_eq_true_iff _ _).mp hv
    rw [hvD]
    exact strictEq_self v (he ▸ hn)
  have hm : assocGet k ((keys (withId d g)).foldl (indexField (withId d g)) ix) =
      some (assocSet v (withId d g) ((assocGet k ix).getD [])) := by
    rw [assocGet_foldl_indexField, if_pos hkD, hvD]
  rw [findDocuments_pair _ c k v _ _ _ hdb (by rw [hidx, assocGet_assocSet_self]) hkp hm]
  simp only [assocGet_assocSet_self, Option.isSome_some, if_true, List.filter_append]
  have hold : ((assocGet c s.database).getD []).filter
      (fun doc => strictEq (getField doc k) v) = [] := by
    apply filter_eq_nil_of_all_false
    intro doc hdoc
    rw [← fieldEq_of_not_proto doc k v hkp]
    exact hnone doc hdoc
  rw [hold]
  simp [hself]

/-- The amended C4 at the insertion of alice into a fresh store. -/
theorem findDocuments_after_insert_witness :
    hasIndexObjects exEmpty = true ∧ isProto "users" = false ∧ plainKeys exAlice = true ∧
    "username" ∈ keys exAlice ∧
    strictEq (getField exAlice "username") (Val.str "alice") = true ∧
    findDocuments (insertDocument exEmpty "users" exAlice "u1").1 "users"
        [("username", Val.str "alice")] = Except.ok (Found.docs [withId exAlice "u1"]) :=
  ⟨rfl, rfl, rfl, by decide, rfl,
    findDocuments_after_insert exEmpty "users" exAlice "u1" "username" (Val.str "alice") rfl
      rfl rfl (by decide) rfl (by intro h; exact absurd h (by decide))
      (by intro doc hdoc; cases hdoc)⟩

/-- C4 as stated fails: `{ id: "" }` has `d.id === ""` and the fresh store holds
no document at all, yet after `insertDocument("users", { id: "" })` the query
`findDocuments("users", { id: "" })` is empty, the stored id being the
generated one.

It also fails at a field named like a property of `Object.prototype`:
after `insertDocument("users", { toString: "x" })`, which throws once the
document is appended, `findDocuments("users", { toString: "x" })` throws a
`TypeError` at `.has`. -/
theorem findDocuments_after_insert_blank_id :
    strictEq (getField exBlankId "id") (Val.str "") = true ∧
    assocGet "users" exEmpty.database = none ∧
    findDocuments (insertDocument exEmpty "users" exBlankId "u1").1 "users"
        [("id", Val.str "")] = Except.ok (Found.docs []) ∧
    findDocuments (insertDocument exEmpty "users" exBlankId "u1").1 "users" [] =
      Except.ok (Found.docs [[("id", Val.str "u1")]]) ∧
    strictEq (getField exToString "toString") (Val.str "x") = true ∧
    (insertDocument exEmpty "users" exToString "u1").2 = Except.error Err.typeError ∧
    findDocuments (insertDocument exEmpty "users" exToString "u1").1 "users"
        [("toString", Val.str "x")] = Except.error Err.typeError :=
  ⟨rfl, rfl, rfl, rfl, rfl, rfl, rfl⟩

/-! ## `updateDocument` and `deleteDocument` at inherited names -/

/-- C5 fails on the code at a patch with a field named like a property of
`Object.prototype`: `updateDocument("users", { username: "alice" },
{ constructor: "x" })` on the store that holds alice puts the merged document
at alice's position and then throws a `TypeError` in `indexDocument`, where
`this.indexes.users.constructor` is the inherited function, instead of
returning the merged document; no listener is called and nothing is saved.
With the patch `{ email: "a@x.com" }` the same call returns the merged
document. -/
theorem updateDocument_inherited_patch :
    assocGet "users" exUsers.database = some [exAliceStored] ∧
    matchesFilter exAlice exAliceStored = true ∧
    (updateDocument exUsers "users" exAlice exConstructorPatch).2 =
      Except.error Err.typeError ∧
    assocGet "users" (updateDocument exUsers "users" exAlice exConstructorPatch).1.database =
      some [[("username", Val.str "alice"), ("id", Val.str "u1"),
        ("constructor", Val.str "x")]] ∧
    (updateDocument exUsers "users" exAlice exConstructorPatch).1.log = exUsers.log ∧
    (updateDocument exUsers "users" exAlice exEmail).2 = Except.ok (some exAliceUpdated) :=
  ⟨rfl, rfl, rfl, rfl, rfl, rfl⟩

/-- C6 fails on the code at a stored document with a field named like a
property of `Object.prototype`.  `insertDocument("users", { toString: "x" })`
throws after it has appended the document; `deleteDocument("users",
{ id: "u1" })` then finds that document, removes it from the collection and
throws a `TypeError` in `removeDocumentFromIndex`, where
`this.indexes.users.toString` is the inherited function, instead of
returning the removed document; no listener is called and nothing is
saved. -/
theorem deleteDocument_inherited_field :
    assocGet "users" exShadowed.database = some [exToStringStored] ∧
    matchesFilter [("id", Val.str "u1")] exToStringStored = true ∧
    (deleteDocument exShadowed "users" [("id", Val.str "u1")]).2 =
      Except.error Err.typeError ∧
    assocGet "users" (deleteDocument exShadowed "users" [("id", Val.str "u1")]).1.database =
      some [] ∧
    (deleteDocument exShadowed "users" [("id", Val.str "u1")]).1.log = exShadowed.log ∧
    (deleteDocument exUsers "users" [("id", Val.str "u1")]).2 =
      Except.ok (some exAliceStored) :=
  ⟨rfl, rfl, rfl, rfl, rfl, rfl⟩

/-- C7 fails on the code at the collection name `constructor`, which the
fresh store does not have: `this.database.constructor` is the inherited
function, which is truthy and has no `findIndex`, so that `updateDocument`
and `deleteDocument` throw a `TypeError` instead of returning `null`.  Under
the unknown name `users` both return `null` and leave the store as it
was. -/
theorem not_found_inherited_collection :
    assocGet "constructor" exEmpty.database = none ∧
    updateDocument exEmpty "constructor" exAlice exEmail =
      (exEmpty, Except.error Err.typeError) ∧
    deleteDocument exEmpty "constructor" exAlice = (exEmpty, Except.error Err.typeError) ∧
    updateDocument exEmpty "users" exAlice exEmail = (exEmpty, Except.ok none) ∧
    deleteDocument exEmpty "users" exAlice = (exEmpty, Except.ok none) :=
  ⟨rfl, rfl, rfl, rfl, rfl⟩

/-! ## Finding an updated document -/

theorem getD_of_getElem? (coll : List Doc) (i : Nat) (d : Doc) (h : coll[i]? = some d) :
    coll.getD i [] = d := by
  rw [List.getD_eq_getElem?_getD, h]
  rfl

theorem mem_set_of_lt {α : Type} (l : List α) (i : Nat) (a : α) (h : i < l.length) :
    a ∈ l.set i a := by
  rw [List.mem_iff_getElem?]
  exact ⟨i, by simp [h]⟩

/-- What a returning `updateDocument` has done. -/
theorem updateDocument_returns (s s' : Store) (c : String) (f p : Obj) (d' : Doc)
    (h : updateDocument s c f p = (s', Except.ok (some d'))) :
    ∃ (coll : List Doc) (i : Nat) (doc : Doc), assocGet c s.database = some coll ∧
      findIndex (matchesFilter f) coll = some i ∧ coll[i]? = some doc ∧
      matchesFilter f doc = true ∧ d' = merge doc p ∧
      s'.database = assocSet c (coll.set i d') s.database ∧
      indexDocument s.indexes c d' = (s'.indexes, none) := by
  unfold updateDocument at h
  cases hs : slot c s.database with
  | absent => rw [hs] at h; simp at h
  | inherited => rw [hs] at h; simp at h
  | own coll =>
    rw [hs] at h
    simp only at h
    cases hi : findIndex (matchesFilter f) coll with
    | none => rw [hi] at h; simp at h
    | some i =>
      rw [hi] at h
      simp only at h
      obtain ⟨doc, hdoc, hpdoc, _⟩ := findIndex_eq_some _ coll i hi
      rw [getD_of_getElem? coll i doc hdoc] at h
      rcases hidx : indexDocument s.indexes c (merge doc p) with ⟨idx, _ | e⟩
      · rw [hidx] at h
        simp only at h
        obtain ⟨h1, h2, h3⟩ := emitAndSave_returns _ _ _ _ _ _ h
        have hd : d' = merge doc p := Option.some.inj h1
        subst hd
        refine ⟨coll, i, doc, slot_eq_own c s.database coll hs, hi, hdoc, hpdoc, rfl, h2, ?_⟩
        rw [hidx, h3]
      · rw [hidx] at h
        simp at h

/-- C8 (as amended): after `updateDocument(c, f, p)` has returned a document,
that document is the matched one merged with `p`: it has every field name of
the matched document and every field of `p` with the value `p` gives it; and
for every key `k` of `p` whose value is not `NaN`,
`findDocuments(c, {k: p[k]})` returns a sequence that contains it. -/
theorem updateDocument_then_find (s s' : Store) (c : String) (f p : Obj) (d' : Doc)
    (h : updateDocument s c f p = (s', Except.ok (some d'))) :
    ∃ (coll : List Doc) (i : Nat) (doc : Doc), assocGet c s.database = some coll ∧ coll[i]? = some doc ∧
      matchesFilter f doc = true ∧
      (∀ k, k ∈ keys doc → k ∈ keys d') ∧
      (∀ k, k ∈ keys p → k ∈ keys d' ∧ getField d' k = getField p k) ∧
      ∀ k, k ∈ keys p → getField p k ≠ Val.nan →
        ∃ r, findDocuments s' c [(k, getField p k)] = Except.ok (Found.docs r) ∧ d' ∈ r := by
  obtain ⟨coll, i, doc, hc, hi, hdoc, hpdoc, hd, hdb, hidx⟩ :=
    updateDocument_returns s s' c f p d' h
  have hlt : i < coll.length := by
    rcases Nat.lt_or_ge i coll.length with h | h
    · exact h
    · rw [List.getElem?_eq_none h] at hdoc; cases hdoc
  have hkp : ∀ k, k ∈ keys p → k ∈ keys d' ∧ getField d' k = getField p k := by
    intro k hk
    rw [hd, mem_keys_merge, getField_merge, if_pos hk]
    exact ⟨Or.inr hk, rfl⟩
  refine ⟨coll, i, doc, hc, hdoc, hpdoc, ?_, hkp, ?_⟩
  · intro k hk
    rw [hd, mem_keys_merge]
    exact Or.inl hk
  · intro k hk hnan
    obtain ⟨hkd, hvd⟩ := hkp k hk
    rcases indexDocument_none _ _ _ _ hidx with ⟨hnil, _⟩ | ⟨ix, hix, hplain, hidx'⟩
    · rw [hnil] at hkd; cases hkd
    · have hkproto : isProto k = false := (plainKeys_iff d').mp hplain k hkd
      have hm : assocGet k ((keys d').foldl (indexField d') ix) =
          some (assocSet (getField p k) d' ((assocGet k ix).getD [])) := by
        rw [assocGet_foldl_indexField, if_pos hkd, hvd]
      refine ⟨(coll.set i d').filter
        (fun doc => strictEq (getField doc k) (getField p k)), ?_, ?_⟩
      · rw [findDocuments_pair s' c k (getField p k) (coll.set i d') _ _
          (by rw [hdb, assocGet_assocSet_self]) (by rw [hidx', assocGet_assocSet_self])
          hkproto hm]
        simp only [assocGet_assocSet_self, Option.isSome_some, if_true]
      · rw [List.mem_filter]
        refine ⟨mem_set_of_lt coll i d' hlt, ?_⟩
        rw [hvd]
        exact strictEq_self _ hnan

/-- The amended C8 at the update of alice with `{ email: "a@x.com" }`. -/
theorem updateDocument_then_find_witness :
    updateDocument exUsers "users" exAlice exEmail =
      ((updateDocument exUsers "users" exAlice exEmail).1, Except.ok (some exAliceUpdated)) ∧
    findDocuments (updateDocument exUsers "users" exAlice exEmail).1 "users" exEmail =
      Except.ok (Found.docs [exAliceUpdated]) ∧
    ∃ (coll : List Doc) (i : Nat) (doc : Doc), assocGet "users" exUsers.database = some coll ∧ coll[i]? = some doc ∧
      matchesFilter exAlice doc = true ∧
      (∀ k, k ∈ keys doc → k ∈ keys exAliceUpdated) ∧
      (∀ k, k ∈ keys exEmail →
        k ∈ keys exAliceUpdated ∧ getField exAliceUpdated k = getField exEmail k) ∧
      ∀ k, k ∈ keys exEmail → getField exEmail k ≠ Val.nan →
        ∃ r, findDocuments (updateDocument exUsers "users" exAlice exEmail).1 "users"
          [(k, getField exEmail k)] = Except.ok (Found.docs r) ∧ exAliceUpdated ∈ r :=
  ⟨rfl, rfl,
    updateDocument_then_find exUsers (updateDocument exUsers "users" exAlice exEmail).1 "users"
      exAlice exEmail exAliceUpdated rfl⟩

/-- C8 as stated fails at a patch holding `NaN`: the update of alice with
`{ score: NaN }` returns the merged document, and
`findDocuments("users", { score: NaN })` then returns the empty sequence, the
index having an entry for `NaN` while `NaN === NaN` is false. -/
theorem updateDocument_then_find_nan :
    (updateDocument exUsers "users" exAlice exScore).2 =
      Except.ok (some [("username", Val.str "alice"), ("id", Val.str "u1"),
        ("score", Val.nan)]) ∧
    "score" ∈ keys exScore ∧
    findDocuments (updateDocument exUsers "users" exAlice exScore).1 "users"
      [("score", getField exScore "score")] = Except.ok (Found.docs []) :=
  ⟨rfl, by decide, rfl⟩

/-! ## The index after `deleteDocument` -/

theorem plainKeys_of_hasMap (ix : FieldIndex) (d : Doc)
    (h : ∀ k ∈ keys d, hasMap ix k = true) : plainKeys d = true := by
  rw [plainKeys_iff]
  intro k hk
  exact ((hasMap_iff ix k).mp (h k hk)).1

theorem deleteDocument_fields (s : Store) (c : String) (f : Obj) (coll : List Doc) (i : Nat)
    (d : Doc) (ix : FieldIndex) (hc : assocGet c s.database = some coll)
    (hi : findIndex (matchesFilter f) coll = some i) (hd : coll[i]? = some d)
    (hix : assocGet c s.indexes = some ix) (hplain : plainKeys d = true) :
    (deleteDocument s c f).1.database = assocSet c (coll.eraseIdx i) s.database ∧
    (deleteDocument s c f).1.indexes =
      assocSet c ((keys d).foldl (unindexField d) ix) s.indexes := by
  unfold deleteDocument
  rw [slot_of_some c s.database coll hc]
  simp only [hi, getD_of_getElem? coll i d hd,
    removeDocumentFromIndex_eq s.indexes c d ix hix hplain]
  exact ⟨(emitAndSave_fields _ _ _ _).1, (emitAndSave_fields _ _ _ _).2.1⟩

/-- C10 fails on the code: with two documents named alice the index entry
for `username` and `"alice"` points at the second one; deleting the first
one, a different document, removes that entry all the same, where the claim
keeps it.  The index that `buildIndexes` makes from the database left by the
deletion has the entry, pointing at the second document. -/
theorem deleteDocument_drops_entry_of_other_document :
    ((assocGet "users" exTwo.indexes).bind (assocGet "username")).bind
        (assocGet (Val.str "alice")) = some exA2 ∧
    exA2 ≠ exA1 ∧
    (deleteDocument exTwo "users" [("id", Val.str "1")]).2 = Except.ok (some exA1) ∧
    "username" ∈ keys exA1 ∧ getField exA1 "username" = Val.str "alice" ∧
    ((assocGet "users" (deleteDocument exTwo "users" [("id", Val.str "1")]).1.indexes).bind
        (assocGet "username")).bind (assocGet (Val.str "alice")) = none ∧
    ((assocGet "users"
        (buildIndexes (deleteDocument exTwo "users" [("id", Val.str "1")]).1).1.indexes).bind
        (assocGet "username")).bind (assocGet (Val.str "alice")) = some exA2 :=
  ⟨rfl, by decide, rfl, by decide, rfl, rfl, rfl⟩

/-! ## Queries after `deleteDocument` -/

theorem count_eraseIdx_add_one (l : List Doc) (i : Nat) (d : Doc) (h : l[i]? = some d) :
    (l.eraseIdx i).count d + 1 = l.count d := by
  induction l generalizing i with
  | nil => simp at h
  | cons a t ih =>
    cases i with
    | zero =>
      simp at h
      subst h
      simp
    | succ i =>
      have h2 : t[i]? = some d := by simpa using h
      have := ih i h2
      simp only [List.eraseIdx_cons_succ, List.count_cons]
      omega

/-- C9 (as amended): in a store where every field of every stored document has
a `Map`, when `deleteDocument(c, f)` removes the document `d`, then
`findDocuments(c, {k: d[k]})` is empty for every field `k` of `d`, and
`findDocuments(c, {})` is the previous sequence without the position of `d`;
`d` no longer appears in it provided it was stored once. -/
theorem deleteDocument_then_find (s : Store) (c : String) (f : Obj) (coll : List Doc)
    (i : Nat) (d : Doc) (hfi : fieldsIndexed s = true)
    (hc : assocGet c s.database = some coll)
    (hi : findIndex (matchesFilter f) coll = some i) (hd : coll[i]? = some d) :
    (∀ k, k ∈ keys d →
      findDocuments (deleteDocument s c f).1 c [(k, getField d k)] =
        Except.ok (Found.docs [])) ∧
    findDocuments (deleteDocument s c f).1 c [] = Except.ok (Found.docs (coll.eraseIdx i)) ∧
    (coll.count d = 1 → d ∉ coll.eraseIdx i) := by
  obtain ⟨ix, hix, hmaps⟩ := fieldMap_of_fieldsIndexed s hfi c coll hc
  have hmem : d ∈ coll := List.mem_iff_getElem?.mpr ⟨i, hd⟩
  have hplain : plainKeys d = true := plainKeys_of_hasMap ix d (hmaps d hmem)
  obtain ⟨hdb, hidx⟩ := deleteDocument_fields s c f coll i d ix hc hi hd hix hplain
  have hdb' : assocGet c (deleteDocument s c f).1.database = some (coll.eraseIdx i) := by
    rw [hdb, assocGet_assocSet_self]
  refine ⟨?_, ?_, ?_⟩
  · intro k hk
    obtain ⟨hkproto, m, hm⟩ := (hasMap_iff ix k).mp (hmaps d hmem k hk)
    have hm' : assocGet k ((keys d).foldl (unindexField d) ix) =
        some (assocDel (getField d k) m) := by
      rw [assocGet_foldl_unindexField, if_pos hk, hm]
      rfl
    rw [findDocuments_pair _ c k (getField d k) _ _ _ hdb'
      (by rw [hidx, assocGet_assocSet_self]) hkproto hm']
    simp only [assocGet_assocDel_self, Option.isSome_none, Bool.false_eq_true, if_false]
  · exact findDocuments_nil _ c _ hdb'
  · intro hcount hin
    have h1 := count_eraseIdx_add_one coll i d hd
    have h2 : 0 < (coll.eraseIdx i).count d := List.count_pos_iff.mpr hin
    omega

/-- The amended C9 at the deletion of alice from the store that holds her. -/
theorem deleteDocument_then_find_witness :
    fieldsIndexed exUsers = true ∧ assocGet "users" exUsers.database = some [exAliceStored] ∧
    findIndex (matchesFilter exAlice) [exAliceStored] = some 0 ∧
    (∀ k, k ∈ keys exAliceStored →
      findDocuments (deleteDocument exUsers "users" exAlice).1 "users"
        [(k, getField exAliceStored k)] = Except.ok (Found.docs [])) ∧
    findDocuments (deleteDocument exUsers "users" exAlice).1 "users" [] =
      Except.ok (Found.docs ([exAliceStored].eraseIdx 0)) ∧
    ([exAliceStored].count exAliceStored = 1 →
      exAliceStored ∉ [exAliceStored].eraseIdx 0) :=
  ⟨rfl, rfl, rfl,
    deleteDocument_then_find exUsers "users" exAlice [exAliceStored] 0 exAliceStored rfl rfl
      rfl rfl⟩

/-- C9 as stated fails: after the same document has been inserted twice,
`deleteDocument("users", { username: "alice" })` removes and returns it, and it
still appears in `findDocuments("users", {})`. -/
theorem deleteDocument_leaves_second_copy :
    assocGet "users" exTwice.database = some [exAliceStored, exAliceStored] ∧
    (deleteDocument exTwice "users" exAlice).2 = Except.ok (some exAliceStored) ∧
    findDocuments (deleteDocument exTwice "users" exAlice).1 "users" [] =
      Except.ok (Found.docs [exAliceStored]) ∧
    exAliceStored ∈ [exAliceStored] :=
  ⟨rfl, rfl, rfl, by simp⟩

/-! ## The index as an existence test -/

/-- C2 fails on the code: after two documents named alice have been inserted
and the first one deleted, the index of `users` has a `Map` for `username`
with no entry for `"alice"`, so that `findDocuments` short-circuits to `[]`,
while the second document, still in the collection, has
`username === "alice"`.  The index that `buildIndexes` makes from the same
database does have the entry. -/
theorem index_entry_lost_by_delete :
    (assocGet "users" exTwoDeleted.indexes).bind (assocGet "username") = some [] ∧
    assocGet "users" exTwoDeleted.database = some [exA2] ∧
    strictEq (getField exA2 "username") (Val.str "alice") = true ∧
    findDocuments exTwoDeleted "users" [("username", Val.str "alice")] =
      Except.ok (Found.docs []) ∧
    ((assocGet "users" (buildIndexes exTwoDeleted).1.indexes).bind
      (assocGet "username")).bind (assocGet (Val.str "alice")) = some exA2 ∧
    findDocuments (buildIndexes exTwoDeleted).1 "users" [("username", Val.str "alice")] =
      Except.ok (Found.docs [exA2]) :=
  ⟨rfl, rfl, rfl, rfl, rfl, rfl⟩

/-! ## `createCollection` and the identifier given by `insertDocument` -/

/-- C17 fails on the code at the name `constructor`, which the fresh store
does not have: `this.database.constructor` is the inherited function, the
test `!this.database[collectionName]` is false, and `createCollection` makes
neither a document sequence nor an index object for that name.  Under the
name `users` it makes both, and a second call changes nothing. -/
theorem createCollection_inherited_name :
    assocGet "constructor" exEmpty.database = none ∧
    createCollection exEmpty "constructor" = exEmpty ∧
    assocGet "constructor" (createCollection exEmpty "constructor").database = none ∧
    assocGet "constructor" (createCollection exEmpty "constructor").indexes = none ∧
    assocGet "users" (createCollection exEmpty "users").database = some [] ∧
    assocGet "users" (createCollection exEmpty "users").indexes = some [] ∧
    createCollection (createCollection exEmpty "users") "users" =
      createCollection exEmpty "users" :=
  ⟨rfl, rfl, rfl, rfl, rfl, rfl, rfl⟩

theorem withId_of_truthy (d : Doc) (g : String) (h : truthy (getField d "id") = true) :
    withId d g = d := by
  unfold withId
  rw [if_pos h]

theorem withId_of_not_mem (d : Doc) (g : String) (h : "id" ∉ keys d) :
    withId d g = assocSet "id" (Val.str g) d := by
  unfold withId
  rw [getField_of_not_mem_keys d "id" h]
  rfl

theorem readField_assocSet_ne (o : Obj) (k k' : String) (v : Val) (h : k' ≠ k) :
    readField (assocSet k v o) k' = readField o k' := by
  unfold readField
  rw [assocGet_assocSet_ne h]

/-- C11 (as amended): under a collection name that is not inherited from
`Object.prototype`, the document that `insertDocument` appends to the
collection is `withId d g`.  When `d` has no `id` field and the generator's
output `g` is not empty, its `id` is the string `g`, which is not the empty
string, every other name reads in it as it reads in `d`, and its field names
are `id` and those of `d`.  When `d` has an `id` that is truthy (for a
string: not empty), the stored document is `d`, its `id` unchanged. -/
theorem insertDocument_assigns_id (s : Store) (c : String) (d : Doc) (g : String)
    (hg : g ≠ "") (hc : isProto c = false) :
    assocGet c (insertDocument s c d g).1.database =
        some ((assocGet c s.database).getD [] ++ [withId d g]) ∧
    ("id" ∉ keys d →
      getField (withId d g) "id" = Val.str g ∧ Val.str g ≠ Val.str "" ∧
      (∀ k, k ≠ "id" → readField (withId d g) k = readField d k) ∧
      (∀ k, k ∈ keys (withId d g) ↔ k = "id" ∨ k ∈ keys d)) ∧
    (truthy (getField d "id") = true →
      withId d g = d ∧ getField (withId d g) "id" = getField d "id") := by
  refine ⟨insertDocument_collection s c d g (Or.inl hc), ?_, ?_⟩
  · intro h
    rw [withId_of_not_mem d g h]
    refine ⟨by rw [getField_assocSet, if_pos rfl], ?_, ?_, ?_⟩
    · intro hv
      exact hg (Val.str.inj hv)
    · intro k hk
      exact readField_assocSet_ne d "id" k (Val.str g) hk
    · intro k
      exact mem_keys_assocSet d "id" k (Val.str g)
  · intro h
    rw [withId_of_truthy d g h]
    exact ⟨rfl, rfl⟩

/-- The amended C11 at the insertion of alice, who has no `id`, and of a
document whose `id` is `"7"`. -/
theorem insertDocument_assigns_id_witness :
    "u1" ≠ "" ∧ isProto "users" = false ∧ "id" ∉ keys exAlice ∧
    truthy (getField [("id", Val.str "7")] "id") = true ∧
    assocGet "users" (insertDocument exEmpty "users" exAlice "u1").1.database =
      some [exAliceStored] ∧
    getField (withId exAlice "u1") "id" = Val.str "u1" ∧
    withId [("id", Val.str "7")] "u1" = [("id", Val.str "7")] :=
  ⟨by decide, rfl, by decide, rfl,
    (insertDocument_assigns_id exEmpty "users" exAlice "u1" (by decide) rfl).1,
    ((insertDocument_assigns_id exEmpty "users" exAlice "u1" (by decide) rfl).2.1
      (by decide)).1,
    ((insertDocument_assigns_id exEmpty "users" [("id", Val.str "7")] "u1"
      (by decide) rfl).2.2 rfl).1⟩

/-- C11 as stated fails: `{ id: "" }` has an `id` field holding a string, and
the document stored by `insertDocument` has the generated `id` instead.

Under the collection name `constructor`, inherited from `Object.prototype`,
`insertDocument` throws at `.push` and stores no document at all. -/
theorem insertDocument_replaces_blank_id :
    "id" ∈ keys exBlankId ∧ getField exBlankId "id" = Val.str "" ∧
    assocGet "users" (insertDocument exEmpty "users" exBlankId "u1").1.database =
      some [[("id", Val.str "u1")]] ∧
    getField [("id", Val.str "u1")] "id" ≠ getField exBlankId "id" ∧
    insertDocument exEmpty "constructor" exAlice "u1" = (exEmpty, Except.error Err.typeError) ∧
    assocGet "constructor" (insertDocument exEmpty "constructor" exAlice "u1").1.database =
      none :=
  ⟨by decide, rfl, rfl, by decide, rfl, rfl⟩

/-! ## What `insertDocument` returns -/

/-- C16 fails on the code: the insertion of alice into a fresh store appends
the document, alice with her id, and returns `undefined`, not that document;
the body of `insertDocument` has no `return` statement.  `updateDocument`
and `deleteDocument` end with `return updatedDoc` and `return deletedDoc`:
the update of alice returns the merged document and her deletion returns the
removed one. -/
theorem insertDocument_returns_no_document :
    insertReturned (insertDocument exEmpty "users" exAlice "u1") = some Returned.undefined ∧
    Returned.undefined ≠ Returned.document (withId exAlice "u1") ∧
    assocGet "users" (insertDocument exEmpty "users" exAlice "u1").1.database =
      some [withId exAlice "u1"] ∧
    changeReturned (updateDocument exUsers "users" exAlice exEmail) =
      some (Returned.document exAliceUpdated) ∧
    changeReturned (deleteDocument exUsers "users" exAlice) =
      some (Returned.document exAliceStored) :=
  ⟨rfl, by decide, rfl, rfl, rfl⟩

/-! ## Listeners: `on` and `emit` -/

theorem runListeners_log (p : Payload) (ls : List Listener) (log : List Effect) :
    (runListeners p ls log).1 = log ++ callsOf p (invoked p ls) := by
  induction ls generalizing log with
  | nil => simp [runListeners, invoked, callsOf]
  | cons l ls ih =>
    by_cases h : l.throwsOn p = true
    · simp [runListeners, invoked, callsOf, h]
    · simp only [runListeners, invoked, h, Bool.false_eq_true, if_false]
      rw [ih]
      simp [callsOf]

theorem invoked_quiet (p : Payload) (ls : List Listener)
    (h : ∀ l ∈ ls, l.throwsOn p = false) : invoked p ls = ls := by
  induction ls with
  | nil => rfl
  | cons l ls ih =>
    have hl := h l (List.mem_cons_self _ _)
    simp only [invoked, hl, Bool.false_eq_true, if_false]
    rw [ih (fun x hx => h x (List.mem_cons_of_mem _ hx))]

theorem invoked_throw (p : Payload) (pre post : List Listener) (l : Listener)
    (hpre : ∀ x ∈ pre, x.throwsOn p = false) (hl : l.throwsOn p = true) :
    invoked p (pre ++ l :: post) = pre ++ [l] := by
  induction pre with
  | nil => simp [invoked, hl]
  | cons a pre ih =>
    have ha := hpre a (List.mem_cons_self _ _)
    have ih2 := ih (fun x hx => hpre x (List.mem_cons_of_mem _ hx))
    show invoked p (a :: (pre ++ l :: post)) = a :: (pre ++ [l])
    simp only [invoked, ha, Bool.false_eq_true, if_false]
    rw [ih2]

theorem runListeners_throw (p : Payload) (pre post : List Listener) (l : Listener)
    (log : List Effect) (hpre : ∀ x ∈ pre, x.throwsOn p = false) (hl : l.throwsOn p = true) :
    (runListeners p (pre ++ l :: post) log).2 = some (Err.listener l.tag) := by
  induction pre generalizing log with
  | nil => simp [runListeners, hl]
  | cons a pre ih =>
    have ha := hpre a (List.mem_cons_self _ _)
    show (runListeners p (a :: (pre ++ l :: post)) log).2 = some (Err.listener l.tag)
    simp only [runListeners, ha, Bool.false_eq_true, if_false]
    exact ih _ (fun x hx => hpre x (List.mem_cons_of_mem _ hx))

theorem emit_log (s : Store) (event : String) (p : Payload) (he : isProto event = false) :
    (emit s event p).1.log = s.log ++ callsOf p (invoked p (listenersFor s event)) := by
  rw [emit_eq s event p he]
  exact runListeners_log p _ s.log

/-- Under an event name that is not inherited, `on` appends the listener to
those registered for the event and throws nothing. -/
theorem onEvent_eq (s : Store) (event : String) (l : Listener) (he : isProto event = false) :
    onEvent s event l =
      ({ s with events := assocSet event (listenersFor s event ++ [l]) s.events }, none) := by
  unfold onEvent listenersFor
  cases hl : assocGet event s.events with
  | none => rw [plainSlot_of_none event s.events hl he]; rfl
  | some ls => rw [plainSlot_of_some event s.events ls hl he]; rfl

/-- C15 (as amended): for an event name `e` that is not inherited from
`Object.prototype`, `emit(e, payload)` calls, in the order of registration
and each with the same payload, the listeners registered for `e` up to and
including the first one that throws, each exactly once: all of them when
none throws, and then it returns; when the listener `x` registered after the
listeners `pre`, none of which throws, throws, the calls are those of `pre`
and of `x`, and the failure of `x` leaves `emit`.  It calls no other listener
and changes nothing but the log.  `on(e, l)` appends `l` after the listeners
already registered for `e` and leaves the listeners of the other events, and
everything else, unchanged. -/
theorem emit_calls_in_order (s : Store) (e : String) (p : Payload) (l : Listener)
    (he : isProto e = false) :
    (emit s e p).1.log = s.log ++ callsOf p (invoked p (listenersFor s e)) ∧
    ((∀ x ∈ listenersFor s e, x.throwsOn p = false) →
      (emit s e p).1.log = s.log ++ callsOf p (listenersFor s e) ∧
      (emit s e p).2 = none) ∧
    (∀ pre x post, listenersFor s e = pre ++ x :: post →
      (∀ y ∈ pre, y.throwsOn p = false) → x.throwsOn p = true →
      (emit s e p).1.log = s.log ++ callsOf p (pre ++ [x]) ∧
      (emit s e p).2 = some (Err.listener x.tag)) ∧
    ((emit s e p).1.database = s.database ∧ (emit s e p).1.indexes = s.indexes ∧
      (emit s e p).1.events = s.events) ∧
    (onEvent s e l).2 = none ∧
    listenersFor (onEvent s e l).1 e = listenersFor s e ++ [l] ∧
    (∀ b, b ≠ e → listenersFor (onEvent s e l).1 b = listenersFor s b) ∧
    ((onEvent s e l).1.database = s.database ∧ (onEvent s e l).1.indexes = s.indexes ∧
      (onEvent s e l).1.log = s.log) := by
  refine ⟨emit_log s e p he, ?_, ?_, ?_, ?_, ?_, ?_, ?_⟩
  · intro h
    refine ⟨?_, emit_ok s e p he h⟩
    rw [emit_log s e p he, invoked_quiet p _ h]
  · intro pre x post hls hpre hx
    refine ⟨?_, ?_⟩
    · rw [emit_log s e p he, hls, invoked_throw p pre post x hpre hx]
    · rw [emit_eq s e p he, hls]
      exact runListeners_throw p pre post x s.log hpre hx
  · exact ⟨(emit_fields s e p).1, (emit_fields s e p).2.1, (emit_fields s e p).2.2.1⟩
  · rw [onEvent_eq s e l he]
  · rw [onEvent_eq s e l he]
    unfold listenersFor
    simp only [assocGet_assocSet_self, Option.getD_some]
  · intro b hb
    rw [onEvent_eq s e l he]
    unfold listenersFor
    simp only [assocGet_assocSet_ne hb]
  · rw [onEvent_eq s e l he]
    exact ⟨rfl, rfl, rfl⟩

/-- The amended C15 at two quiet listeners registered for one event and one
for another. -/
theorem emit_calls_in_order_witness :
    isProto "a" = false ∧
    (emit (onEvent (onEvent (onEvent exEmpty "a" (exQuiet 1)).1 "b" (exQuiet 2)).1 "a"
        (exQuiet 3)).1 "a" (Payload.deleted "users" [])).1.log =
      [Effect.called 1 (Payload.deleted "users" []), Effect.called 3 (Payload.deleted "users" [])] ∧
    (emit (onEvent (onEvent (onEvent exEmpty "a" (exQuiet 1)).1 "b" (exQuiet 2)).1 "a"
        (exQuiet 3)).1 "a" (Payload.deleted "users" [])).2 = none :=
  have h := (emit_calls_in_order
    (onEvent (onEvent (onEvent exEmpty "a" (exQuiet 1)).1 "b" (exQuiet 2)).1 "a" (exQuiet 3)).1
    "a" (Payload.deleted "users" []) (exQuiet 4) rfl).2.1
    (by
      intro x hx
      have hls : listenersFor (onEvent (onEvent (onEvent exEmpty "a" (exQuiet 1)).1 "b"
          (exQuiet 2)).1 "a" (exQuiet 3)).1 "a" = [exQuiet 1, exQuiet 3] := rfl
      rw [hls] at hx
      simp only [List.mem_cons, List.mem_singleton, List.not_mem_nil, or_false] at hx
      rcases hx with rfl | rfl <;> rfl)
  ⟨rfl, h.1, h.2⟩

/-- C15 as stated fails: of the three listeners registered for
`documentUpdated`, in the order 1, 2, 3, the second throws, and `emit` calls
the first and the second only; the third is not called.

Under the event name `constructor`, inherited from `Object.prototype`,
`on` throws a `TypeError` at `.push` and registers nothing, and `emit` throws
a `TypeError` at `.forEach`. -/
theorem emit_stops_at_throwing_listener :
    (listenersFor exListening "documentUpdated").map Listener.tag = [1, 2, 3] ∧
    (emit exListening "documentUpdated" (Payload.updated "users" exAlice exEmail)).1.log =
      exListening.log ++ [Effect.called 1 (Payload.updated "users" exAlice exEmail),
        Effect.called 2 (Payload.updated "users" exAlice exEmail)] ∧
    Effect.called 3 (Payload.updated "users" exAlice exEmail) ∉
      (emit exListening "documentUpdated" (Payload.updated "users" exAlice exEmail)).1.log ∧
    (onEvent exEmpty "constructor" (exQuiet 1)).2 = some Err.typeError ∧
    listenersFor (onEvent exEmpty "constructor" (exQuiet 1)).1 "constructor" = [] ∧
    (emit exEmpty "constructor" (Payload.deleted "users" [])).2 = some Err.typeError :=
  ⟨rfl, rfl, by decide, rfl, rfl, rfl⟩

/-! ## Mutate, emit, persist -/

/-- C14 fails on the code at a document with a field named like a property
of `Object.prototype`.  The fresh store has one `documentInserted` listener,
which never throws, and saving is enabled.
`insertDocument("users", { toString: "x" })` appends the document and then
throws a `TypeError` in `indexDocument`: no listener is called and nothing
is saved, although no listener fails, and the document has been appended
without any of its fields being indexed.  The insertion of alice calls the
listener and saves once. -/
theorem insertDocument_throws_before_emit :
    (listenersFor exWatched "documentInserted").map Listener.tag = [1] ∧
    (∀ x ∈ listenersFor exWatched "documentInserted",
      x.throwsOn (Payload.inserted "users" exToStringStored) = false) ∧
    exWatched.options.saveToFile = true ∧
    (insertDocument exWatched "users" exToString "u1").2 = Except.error Err.typeError ∧
    (insertDocument exWatched "users" exToString "u1").1.log = [] ∧
    assocGet "users" (insertDocument exWatched "users" exToString "u1").1.database =
      some [exToStringStored] ∧
    assocGet "users" (insertDocument exWatched "users" exToString "u1").1.indexes = some [] ∧
    (insertDocument exWatched "users" exAlice "u1").2 = Except.ok () ∧
    (insertDocument exWatched "users" exAlice "u1").1.log =
      [Effect.called 1 (Payload.inserted "users" exAliceStored),
        Effect.writeFile [("users", [exAliceStored])],
        Effect.checked [("users", [exAliceStored])]] :=
  ⟨rfl,
    (by
      intro x hx
      have hls : listenersFor exWatched "documentInserted" = [exQuiet 1] := rfl
      rw [hls, List.mem_singleton] at hx
      rw [hx]
      rfl),
    rfl, rfl, rfl, rfl, rfl, rfl, rfl⟩

/-! ## Without deletions and inherited names the index loses no match -/

theorem mem_assocSet {κ α : Type} [DecidableEq κ] (k : κ) (v : α) (l : List (κ × α))
    (e : κ × α) (h : e ∈ assocSet k v l) : e = (k, v) ∨ e ∈ l := by
  induction l with
  | nil => left; simpa [assocSet] using h
  | cons a t ih =>
    by_cases h1 : a.1 = k
    · simp only [assocSet, h1, if_true, List.mem_cons] at h
      rcases h with h | h
      · exact Or.inl h
      · exact Or.inr (List.mem_cons_of_mem _ h)
    · simp only [assocSet, h1, if_false, List.mem_cons] at h
      rcases h with h | h
      · exact Or.inr (h ▸ List.mem_cons_self _ _)
      · rcases ih h with h2 | h2
        · exact Or.inl h2
        · exact Or.inr (List.mem_cons_of_mem _ h2)

theorem entriesHeldIn_iff (db : Database) (idx : Indexes) :
    entriesHeldIn db idx = true ↔
      ∀ e ∈ db, ∃ ix, assocGet e.1 idx = some ix ∧
        ∀ doc ∈ e.2, ∀ k ∈ keys doc, holdsEntry ix doc k = true := by
  unfold entriesHeldIn
  rw [List.all_eq_true]
  constructor
  · intro h e he
    have h1 := h e he
    cases hix : assocGet e.1 idx with
    | none => rw [hix] at h1; cases h1
    | some ix =>
      rw [hix] at h1
      refine ⟨ix, rfl, ?_⟩
      intro doc hdoc k hk
      simp only [List.all_eq_true] at h1
      exact h1 doc hdoc k hk
  · intro h e he
    obtain ⟨ix, hix, hall⟩ := h e he
    rw [hix]
    simp only [List.all_eq_true]
    exact hall

theorem holdsEntry_iff (ix : FieldIndex) (doc : Doc) (k : String) :
    holdsEntry ix doc k = true ↔
      isProto k = false ∧
        ∃ m, assocGet k ix = some m ∧ (assocGet (getField doc k) m).isSome = true := by
  unfold holdsEntry
  constructor
  · intro h
    cases hs : plainSlot k ix with
    | own m =>
      rw [hs] at h
      obtain ⟨h1, h2⟩ := plainSlot_eq_own k ix m hs
      exact ⟨h1, m, h2, h⟩
    | inherited => rw [hs] at h; cases h
    | absent => rw [hs] at h; cases h
  · rintro ⟨hk, m, hm, hv⟩
    rw [plainSlot_of_some k ix m hm hk]
    exact hv

theorem hasMap_of_holdsEntry (ix : FieldIndex) (doc : Doc) (k : String)
    (h : holdsEntry ix doc k = true) : hasMap ix k = true := by
  obtain ⟨hk, m, hm, _⟩ := (holdsEntry_iff ix doc k).mp h
  exact (hasMap_iff ix k).mpr ⟨hk, m, hm⟩

theorem entriesHeldIn_assocSet (db : Database) (idx : Indexes) (c : String) (coll : List Doc)
    (ix ix' : FieldIndex) (h : entriesHeldIn db idx = true) (hix : assocGet c idx = some ix)
    (hmono : ∀ doc k, holdsEntry ix doc k = true → holdsEntry ix' doc k = true)
    (hnew : ∀ doc ∈ coll, ∀ k ∈ keys doc, holdsEntry ix' doc k = true) :
    entriesHeldIn (assocSet c coll db) (assocSet c ix' idx) = true := by
  rw [entriesHeldIn_iff] at h ⊢
  intro e he
  rcases mem_assocSet c coll db e he with rfl | he
  · exact ⟨ix', assocGet_assocSet_self _ _ _, hnew⟩
  · obtain ⟨ixe, hixe, hall⟩ := h e he
    by_cases hec : e.1 = c
    · rw [hec] at hixe ⊢
      rw [hix] at hixe
      cases hixe
      exact ⟨ix', assocGet_assocSet_self _ _ _,
        fun doc hdoc k hk => hmono doc k (hall doc hdoc k hk)⟩
    · exact ⟨ixe, by rw [assocGet_assocSet_ne hec]; exact hixe, hall⟩

theorem holdsEntry_indexField_mono (d : Doc) (ks : List String) (ix : FieldIndex) (doc : Doc)
    (k : String) (h : holdsEntry ix doc k = true) :
    holdsEntry (ks.foldl (indexField d) ix) doc k = true := by
  rw [holdsEntry_iff] at h ⊢
  obtain ⟨hproto, m, hm, hv⟩ := h
  refine ⟨hproto, ?_⟩
  rw [assocGet_foldl_indexField]
  by_cases hk : k ∈ ks
  · refine ⟨_, if_pos hk, ?_⟩
    rw [hm, Option.getD_some, assocGet_assocSet]
    by_cases hv2 : getField doc k = getField d k
    · simp [hv2]
    · simpa [hv2] using hv
  · exact ⟨m, by rw [if_neg hk]; exact hm, hv⟩

theorem holdsEntry_indexField_covers (d : Doc) (ix : FieldIndex) (k : String)
    (hk : k ∈ keys d) (hproto : isProto k = false) :
    holdsEntry ((keys d).foldl (indexField d) ix) d k = true := by
  rw [holdsEntry_iff, assocGet_foldl_indexField]
  exact ⟨hproto, _, if_pos hk, by rw [assocGet_assocSet_self]; rfl⟩

theorem entriesHeldIn_indexBefore (s : Store) (c : String) (h : entriesHeld s = true) :
    entriesHeldIn s.database (indexBefore s c) = true := by
  unfold indexBefore
  cases hc : assocGet c s.database with
  | some coll => simpa using h
  | none =>
    simp only [Option.isNone_none, if_true]
    unfold entriesHeld at h
    rw [entriesHeldIn_iff] at h ⊢
    intro e he
    obtain ⟨ixe, hixe, hall⟩ := h e he
    have hne : e.1 ≠ c := by
      intro hec
      have h1 : (assocGet c s.database).isSome = true := by
        rw [assocGet_isSome_iff]
        exact List.mem_map.mpr ⟨e, he, hec⟩
      rw [hc] at h1
      cases h1
    exact ⟨ixe, by rw [assocGet_assocSet_ne hne]; exact hixe, hall⟩

theorem indexBefore_of_entriesHeld (s : Store) (c : String) (h : entriesHeld s = true) :
    ∃ ix, assocGet c (indexBefore s c) = some ix := by
  unfold indexBefore
  cases hc : assocGet c s.database with
  | none => exact ⟨[], by simp⟩
  | some coll =>
    obtain ⟨ix, hix, _⟩ := (entriesHeldIn_iff _ _).mp h (c, coll)
      (assocGet_of_mem_fst c coll s.database hc)
    exact ⟨ix, by simpa using hix⟩

theorem entriesHeld_insertDocument (s : Store) (c : String) (d : Doc) (g : String)
    (h : entriesHeld s = true) (hd : plainKeys d = true) :
    entriesHeld (insertDocument s c d g).1 = true := by
  by_cases hc : isProto c = false ∨ (assocGet c s.database).isSome = true
  · obtain ⟨ix, hix⟩ := indexBefore_of_entriesHeld s c h
    have hbase := entriesHeldIn_indexBefore s c h
    have hplain := (plainKeys_iff _).mp (plainKeys_withId d g hd)
    unfold entriesHeld
    rw [insertDocument_database s c d g hc, insertDocument_indexes s c d g ix hc hd hix]
    refine entriesHeldIn_assocSet _ _ c _ ix _ hbase hix
      (fun doc k => holdsEntry_indexField_mono _ _ ix doc k) ?_
    intro doc hdoc k hk
    rcases List.mem_append.mp hdoc with hold | hnew
    · cases hdb : assocGet c s.database with
      | none => rw [hdb] at hold; cases hold
      | some coll =>
        rw [hdb] at hold
        have hmem := assocGet_of_mem_fst c coll s.database hdb
        obtain ⟨ix2, hix2, hall⟩ := (entriesHeldIn_iff _ _).mp hbase (c, coll) hmem
        rw [hix] at hix2
        cases hix2
        exact holdsEntry_indexField_mono _ _ ix doc k (hall doc hold k hk)
    · rw [List.mem_singleton] at hnew
      subst hnew
      exact holdsEntry_indexField_covers _ ix k hk (hplain k hk)
  · have hproto : isProto c = true := by
      by_contra hn
      exact hc (Or.inl (by simpa using hn))
    have hdb : assocGet c s.database = none := by
      cases hg : assocGet c s.database with
      | none => rfl
      | some coll => exact absurd (Or.inr (by rw [hg]; rfl)) hc
    rw [insertDocument_inherited s c d g hproto hdb]
    exact h

/-- On a collection that has its index object, an update whose merged
document has no inherited name replaces the first match, indexes the merged
document and goes on to emit and save. -/
theorem updateDocument_found (s : Store) (c : String) (f p : Obj) (coll : List Doc) (i : Nat)
    (ix : FieldIndex) (hc : assocGet c s.database = some coll)
    (hi : findIndex (matchesFilter f) coll = some i) (hix : assocGet c s.indexes = some ix)
    (hplain : plainKeys (merge (coll.getD i []) p) = true) :
    updateDocument s c f p =
      emitAndSave
        { s with
          database := assocSet c (coll.set i (merge (coll.getD i []) p)) s.database,
          indexes := assocSet c
            ((keys (merge (coll.getD i []) p)).foldl (indexField (merge (coll.getD i []) p)) ix)
            s.indexes }
        "documentUpdated" (Payload.updated c f p) (some (merge (coll.getD i []) p)) := by
  unfold updateDocument
  rw [slot_of_some c s.database coll hc]
  simp only [hi, indexDocument_eq s.indexes c _ ix hix hplain]

/-- A call that finds no collection or no match leaves the store as it was. -/
theorem updateDocument_unchanged (s : Store) (c : String) (f p : Obj)
    (h : ∀ coll, assocGet c s.database = some coll → findIndex (matchesFilter f) coll = none) :
    (updateDocument s c f p).1 = s := by
  unfold updateDocument
  cases hs : slot c s.database with
  | absent => rfl
  | inherited => rfl
  | own coll =>
    simp only [h coll (slot_eq_own c s.database coll hs)]

theorem entriesHeld_updateDocument (s : Store) (c : String) (f p : Obj)
    (h : entriesHeld s = true) (hp : plainKeys p = true) :
    entriesHeld (updateDocument s c f p).1 = true := by
  by_cases hfound : ∀ coll, assocGet c s.database = some coll →
      findIndex (matchesFilter f) coll = none
  · rw [updateDocument_unchanged s c f p hfound]
    exact h
  · have hex : ∃ coll i, assocGet c s.database = some coll ∧
        findIndex (matchesFilter f) coll = some i := by
      by_contra hn
      apply hfound
      intro coll hc
      cases hi : findIndex (matchesFilter f) coll with
      | none => rfl
      | some i => exact absurd ⟨coll, i, hc, hi⟩ hn
    obtain ⟨coll, i, hc, hi⟩ := hex
    have hmem := assocGet_of_mem_fst c coll s.database hc
    obtain ⟨ix, hix, hall⟩ := (entriesHeldIn_iff _ _).mp h (c, coll) hmem
    obtain ⟨doc, hdoc, _, _⟩ := findIndex_eq_some _ coll i hi
    have hdmem : doc ∈ coll := List.mem_iff_getElem?.mpr ⟨i, hdoc⟩
    have hplain : ∀ k ∈ keys (merge doc p), isProto k = false := by
      intro k hk
      rcases (mem_keys_merge doc p k).mp hk with hk | hk
      · exact ((holdsEntry_iff ix doc k).mp (hall doc hdmem k hk)).1
      · exact (plainKeys_iff p).mp hp k hk
    have hfound2 := updateDocument_found s c f p coll i ix hc hi hix
      (by rw [getD_of_getElem? coll i doc hdoc]; exact (plainKeys_iff _).mpr hplain)
    rw [getD_of_getElem? coll i doc hdoc] at hfound2
    rw [hfound2]
    unfold entriesHeld
    rw [(emitAndSave_fields _ _ _ _).1, (emitAndSave_fields _ _ _ _).2.1]
    refine entriesHeldIn_assocSet _ _ c _ ix _ h hix
      (fun doc k => holdsEntry_indexField_mono _ _ ix doc k) ?_
    intro doc2 hdoc2 k hk
    rcases List.mem_or_eq_of_mem_set hdoc2 with hold | hnew
    · exact holdsEntry_indexField_mono _ _ ix doc2 k (hall doc2 hold k hk)
    · subst hnew
      exact holdsEntry_indexField_covers _ ix k hk (hplain k hk)

theorem entriesHeld_runOps (s : Store) (ops : List Op) (h : entriesHeld s = true)
    (hops : ∀ op ∈ ops, isPlainWrite op = true) : entriesHeld (runOps s ops) = true := by
  induction ops generalizing s with
  | nil => exact h
  | cons op ops ih =>
    have hop := hops op (List.mem_cons_self _ _)
    have hstep : entriesHeld (applyOp s op) = true := by
      cases op with
      | insert c d g => exact entriesHeld_insertDocument s c d g h hop
      | update c f u => exact entriesHeld_updateDocument s c f u h hop
      | delete c f => cases hop
    exact ih (applyOp s op) hstep (fun x hx => hops x (List.mem_cons_of_mem _ hx))

/-- The loop of `findDocuments` over keys that all have a `Map`: `[]` as soon
as one of them has no entry for the filter's value, otherwise the documents
of the working set that pass the test of every key. -/
theorem findLoop_maps (idx : Indexes) (c : String) (f : Obj) (ix : FieldIndex)
    (hix : assocGet c idx = some ix) (ks : List String)
    (hks : ∀ k ∈ ks, hasMap ix k = true) (l : List Doc) :
    findLoop idx c f ks (Found.docs l) =
      Except.ok (Found.docs (if ks.all (holdsEntry ix f) = true then
        l.filter (fun doc => ks.all (fun k => fieldEq doc k (getField f k))) else [])) := by
  induction ks generalizing l with
  | nil => simp [findLoop]
  | cons key ks ih =>
    obtain ⟨hproto, m, hm⟩ := (hasMap_iff ix key).mp (hks key (List.mem_cons_self _ _))
    have ih2 := ih (fun k hk => hks k (List.mem_cons_of_mem _ hk))
    have hhold : holdsEntry ix f key = (assocGet (getField f key) m).isSome := by
      unfold holdsEntry
      rw [plainSlot_of_some key ix m hm hproto]
    simp only [findLoop, slot_of_some c idx ix hix, plainSlot_of_some key ix m hm hproto,
      List.all_cons, hhold]
    by_cases hhas : (assocGet (getField f key) m).isSome = true
    · simp only [hhas, if_true, ih2, Bool.true_and, List.filter_filter]
      have hcomm : (fun a : Doc => ks.all (fun k => fieldEq a k (getField f k)) &&
            fieldEq a key (getField f key)) =
          (fun doc : Doc => fieldEq doc key (getField f key) &&
            ks.all (fun k => fieldEq doc k (getField f k))) :=
        funext (fun a => Bool.and_comm _ _)
      rw [hcomm]
    · simp [hhas]

/-- C19 (as amended): in every store reached from the empty one by
insertions and updates only, whose documents and patches have no field named
like a property of `Object.prototype`, for every collection `c` whose name
is not inherited either and every filter `f` whose keys all have a `Map` in
the index of `c` (some document with that field has been indexed in `c`) and
none of whose values is `undefined`, `findDocuments(c, f)` returns exactly
the documents of `c` that pass the test `doc[k] === f[k]` for every key `k`
of `f`, in sequence order. -/
theorem findDocuments_complete (options : Options) (check : Database → Bool) (ops : List Op)
    (c : String) (f : Obj) (hops : ∀ op ∈ ops, isPlainWrite op = true)
    (hc : isProto c = false)
    (hkeys : ∀ k ∈ keys f, ∃ ix,
      assocGet c (runOps (emptyStore options check) ops).indexes = some ix ∧
        hasMap ix k = true)
    (hdef : ∀ k ∈ keys f, getField f k ≠ Val.undefined) :
    findDocuments (runOps (emptyStore options check) ops) c f =
      Except.ok (Found.docs
        (((assocGet c (runOps (emptyStore options check) ops).database).getD []).filter
          (matchesFilter f))) := by
  have hinv := entriesHeld_runOps (emptyStore options check) ops rfl hops
  generalize runOps (emptyStore options check) ops = s at hinv hkeys ⊢
  cases hdb : assocGet c s.database with
  | none =>
    unfold findDocuments
    rw [slot_of_none c s.database hdb hc]
    rfl
  | some coll =>
    have hmem := assocGet_of_mem_fst c coll s.database hdb
    obtain ⟨ix, hix, hall⟩ := (entriesHeldIn_iff _ _).mp hinv (c, coll) hmem
    have hmaps : ∀ k ∈ keys f, hasMap ix k = true := by
      intro k hk
      obtain ⟨ix2, h1, h2⟩ := hkeys k hk
      rw [hix] at h1
      cases h1
      exact h2
    have hsh : shadowsHasOwnProperty f = false :=
      not_shadows_of_plain f (fun k hk => ((hasMap_iff ix k).mp (hmaps k hk)).1)
    unfold findDocuments
    rw [slot_of_some c s.database coll hdb]
    simp only [hsh, Bool.false_eq_true, if_false, Option.getD_some]
    rw [findLoop_maps s.indexes c f ix hix (keys f) hmaps coll]
    have hfilter : coll.filter (fun doc => (keys f).all (fun k => fieldEq doc k (getField f k)))
        = coll.filter (matchesFilter f) := rfl
    by_cases hpres : (keys f).all (holdsEntry ix f) = true
    · rw [if_pos hpres, hfilter]
    · rw [if_neg hpres]
      congr 2
      symm
      apply filter_eq_nil_of_all_false
      intro doc hdoc
      by_contra hmatch
      have hmatch : matchesFilter f doc = true := by simpa using hmatch
      apply hpres
      rw [List.all_eq_true]
      intro k hk
      obtain ⟨hproto, m, hm⟩ := (hasMap_iff ix k).mp (hmaps k hk)
      have hk2 : strictEq (getField doc k) (getField f k) = true := by
        unfold matchesFilter at hmatch
        rw [List.all_eq_true] at hmatch
        rw [← fieldEq_of_not_proto doc k _ hproto]
        exact hmatch k hk
      have heq := ((strictEq_eq_true_iff _ _).mp hk2).2
      have hkdoc : k ∈ keys doc := by
        by_contra hn
        rw [getField_of_not_mem_keys doc k hn] at heq
        exact hdef k hk heq.symm
      obtain ⟨_, m2, hm2, hv⟩ := (holdsEntry_iff ix doc k).mp (hall doc hdoc k hkdoc)
      rw [holdsEntry_iff]
      refine ⟨hproto, m2, hm2, ?_⟩
      rw [← heq]
      exact hv

/-- The amended C19 at the query for `a === 1` on the store that holds one
document with that value and one without the field. -/
theorem findDocuments_complete_witness :
    isProto "users" = false ∧
    findDocuments (runOps (emptyStore exOptions (fun _ => false))
        [Op.insert "users" exWithA "u1", Op.insert "users" exWithoutA "u2"]) "users"
        [("a", Val.num 1)] =
      Except.ok (Found.docs
        (((assocGet "users" (runOps (emptyStore exOptions (fun _ => false))
          [Op.insert "users" exWithA "u1", Op.insert "users" exWithoutA "u2"]).database).getD
            []).filter (matchesFilter [("a", Val.num 1)]))) ∧
    ((assocGet "users" exMixed.database).getD []).filter (matchesFilter [("a", Val.num 1)]) =
      [exWithA] :=
  ⟨rfl,
    findDocuments_complete exOptions (fun _ => false)
      [Op.insert "users" exWithA "u1", Op.insert "users" exWithoutA "u2"] "users"
      [("a", Val.num 1)]
      (by
        intro op hop
        simp only [List.mem_cons, List.mem_singleton, List.not_mem_nil, or_false] at hop
        rcases hop with rfl | rfl <;> rfl)
      rfl
      (by
        intro k hk
        rw [keys_singleton, List.mem_singleton] at hk
        subst hk
        exact ⟨_, rfl, rfl⟩)
      (by
        intro k hk
        rw [keys_singleton, List.mem_singleton] at hk
        subst hk
        decide), rfl⟩

/-- C19 as stated fails at a filter value `undefined`.  On the store holding
`{ id: "1", a: 1 }` and `{ id: "2" }` the field `a` is indexed, the second
document passes `doc.a === undefined`, the test that `updateDocument` applies,
and `findDocuments("users", { a: undefined })` returns `[]`.  On the store
holding `{ id: "3", a: undefined }` and `{ id: "2" }` the same query returns
both documents, the second of which has no field `a`.

It also fails after the insertion of a document with a field named like a
property of `Object.prototype`: the insertion of `{ toString: "x", a: 2,
id: "2" }` after `{ a: 1, id: "1" }` appends the document and throws at its
first field, before `a` is indexed, and `findDocuments("users", { a: 2 })`
returns `[]` while the second document passes `doc.a === 2`. -/
theorem findDocuments_undefined_filter_value :
    (assocGet "users" exMixed.indexes).bind (assocGet "a") =
      some [(Val.num 1, exWithA)] ∧
    assocGet "users" exMixed.database = some [exWithA, exWithoutA] ∧
    matchesFilter [("a", Val.undefined)] exWithoutA = true ∧
    findDocuments exMixed "users" [("a", Val.undefined)] = Except.ok (Found.docs []) ∧
    (updateDocument exMixed "users" [("a", Val.undefined)] []).2 =
      Except.ok (some exWithoutA) ∧
    findDocuments exMixedUndefined "users" [("a", Val.undefined)] =
      Except.ok (Found.docs [exUndefinedA, exWithoutA]) ∧
    "a" ∉ keys exWithoutA ∧
    assocGet "users" (runOps exEmpty exPlainThenShadow).database =
      some [[("a", Val.num 1), ("id", Val.str "1")],
        [("toString", Val.str "x"), ("a", Val.num 2), ("id", Val.str "2")]] ∧
    matchesFilter [("a", Val.num 2)]
      [("toString", Val.str "x"), ("a", Val.num 2), ("id", Val.str "2")] = true ∧
    findDocuments (runOps exEmpty exPlainThenShadow) "users" [("a", Val.num 2)] =
      Except.ok (Found.docs []) :=
  ⟨rfl, rfl, rfl, rfl, rfl, rfl, by decide, rfl, rfl, rfl⟩

/-! ## The index rebuilt from the database -/

/-- C20 fails on the code at a document with a field named like a property
of `Object.prototype`.  After `insertDocument("users", { toString: "x",
id: "1" })`, which throws at the first field once the document is appended,
and `insertDocument("users", { a: 1, id: "2" })`, the index kept by the
insertions has a `Map` for `a` and one for `id`, each with the entry of the
second document only.  `buildIndexes` on the database so reached throws at
the first document and leaves `users` with an empty index object, on the
instance itself and on a fresh `this.indexes` alike.  After the insertion of
two documents without such a field both indexes are the same. -/
theorem incremental_index_differs_from_rebuilt :
    (∀ op ∈ exShadowThenPlain, isInsert op = true) ∧
    assocGet "users" (runOps exEmpty exShadowThenPlain).database =
      some [[("toString", Val.str "x"), ("id", Val.str "1")],
        [("a", Val.num 1), ("id", Val.str "2")]] ∧
    (runOps exEmpty exShadowThenPlain).indexes =
      [("users", [("a", [(Val.num 1, [("a", Val.num 1), ("id", Val.str "2")])]),
        ("id", [(Val.str "2", [("a", Val.num 1), ("id", Val.str "2")])])])] ∧
    (buildIndexes (runOps exEmpty exShadowThenPlain)).2 = some Err.typeError ∧
    (buildIndexes (runOps exEmpty exShadowThenPlain)).1.indexes = [("users", [])] ∧
    (buildIndexes (withoutIndexes (runOps exEmpty exShadowThenPlain))).1.indexes =
      [("users", [])] ∧
    (buildIndexes (withoutIndexes exTwo)).2 = none ∧
    (buildIndexes (withoutIndexes exTwo)).1.indexes = exTwo.indexes :=
  ⟨by
      intro op hop
      simp only [exShadowThenPlain, List.mem_cons, List.mem_singleton, List.not_mem_nil,
        or_false] at hop
      rcases hop with rfl | rfl <;> rfl,
    rfl, rfl, rfl, rfl, rfl, rfl, rfl⟩

/-! ## `getBackupInterval` -/

theorem toDouble_small (n : Nat) (h : n < 9007199254740992) : toDouble n = Amount.finite n := by
  unfold toDouble
  rw [if_pos h]

theorem mul_small (n k : Nat) (h : n * k < 9007199254740992) :
    (Amount.finite n).mul k = Amount.finite (n * k) := by
  unfold Amount.mul
  exact toDouble_small _ h

theorem unitChars_not_digit (u : Char) (h : u ∈ unitChars) : u.isDigit = false := by
  simp only [unitChars, List.mem_cons, List.mem_singleton, List.not_mem_nil, or_false] at h
  rcases h with rfl | rfl | rfl | rfl <;> decide

theorem takeWhile_append_stop {α : Type} (p : α → Bool) (ds : List α) (u : α)
    (hds : ∀ c ∈ ds, p c = true) (hu : p u = false) :
    (ds ++ [u]).takeWhile p = ds ∧ (ds ++ [u]).dropWhile p = [u] := by
  induction ds with
  | nil => simp [List.takeWhile, List.dropWhile, hu]
  | cons a ds ih =>
    have ha := hds a (List.mem_cons_self _ _)
    have := ih (fun c hc => hds c (List.mem_cons_of_mem _ hc))
    simp [List.takeWhile, List.dropWhile, ha, this.1, this.2]

theorem matchInterval_eq_some (s : String) (ds : List Char) (u : Char) :
    matchInterval s = some (ds, u) ↔
      s.data = ds ++ [u] ∧ ds ≠ [] ∧ (∀ c ∈ ds, c.isDigit = true) ∧ u ∈ unitChars := by
  constructor
  · intro h
    unfold matchInterval at h
    have hsplit := List.takeWhile_append_dropWhile Char.isDigit s.data
    cases hd : s.data.dropWhile Char.isDigit with
    | nil => rw [hd] at h; cases h
    | cons a t =>
      cases t with
      | cons b t2 => rw [hd] at h; cases h
      | nil =>
        rw [hd] at h hsplit
        simp only at h
        by_cases hc : s.data.takeWhile Char.isDigit ≠ [] ∧ a ∈ unitChars
        · rw [if_pos hc] at h
          simp only [Option.some.injEq, Prod.mk.injEq] at h
          obtain ⟨h1, h2⟩ := h
          subst h2
          rw [h1] at hsplit hc
          refine ⟨hsplit.symm, hc.1, ?_, hc.2⟩
          intro c hcmem
          rw [← h1] at hcmem
          exact List.mem_takeWhile_imp hcmem
        · rw [if_neg hc] at h; cases h
  · rintro ⟨hdata, hne, hdig, hu⟩
    obtain ⟨ht, hd⟩ := takeWhile_append_stop Char.isDigit ds u hdig (unitChars_not_digit u hu)
    unfold matchInterval
    rw [hdata, hd]
    simp only
    rw [ht, if_pos ⟨hne, hu⟩]

theorem matchInterval_isSome_iff (s : String) :
    (matchInterval s).isSome = true ↔ IsIntervalString s := by
  unfold IsIntervalString
  constructor
  · intro h
    obtain ⟨⟨ds, u⟩, hm⟩ := Option.isSome_iff_exists.mp h
    exact ⟨ds, u, (matchInterval_eq_some s ds u).mp hm⟩
  · rintro ⟨ds, u, h⟩
    rw [(matchInterval_eq_some s ds u).mpr h]
    rfl

theorem getBackupInterval_error_iff (s : String) :
    (∃ e, getBackupInterval s = Except.error e) ↔ ¬ IsIntervalString s := by
  rw [← matchInterval_isSome_iff]
  unfold getBackupInterval
  cases hm : matchInterval s with
  | none =>
    constructor
    · intro _ h; cases h
    · intro _; exact ⟨IntervalError.invalid, rfl⟩
  | some du =>
    obtain ⟨ds, u⟩ := du
    have hu := ((matchInterval_eq_some s ds u).mp hm).2.2.2
    simp only [unitChars, List.mem_cons, List.mem_singleton, List.not_mem_nil, or_false] at hu
    rcases hu with rfl | rfl | rfl | rfl <;> simp

theorem getBackupInterval_exact (s : String) (ds : List Char) (u : Char)
    (hdata : s.data = ds ++ [u]) (hne : ds ≠ []) (hdig : ∀ c ∈ ds, c.isDigit = true)
    (hu : u ∈ unitChars) (hsmall : digitsValue ds * unitFactor u < 9007199254740992) :
    getBackupInterval s = Except.ok (Amount.finite (digitsValue ds * unitFactor u)) := by
  have hm := (matchInterval_eq_some s ds u).mpr ⟨hdata, hne, hdig, hu⟩
  unfold getBackupInterval
  rw [hm]
  simp only [unitChars, List.mem_cons, List.mem_singleton, List.not_mem_nil, or_false] at hu
  rcases hu with rfl | rfl | rfl | rfl
  · have h1 : unitFactor 's' = 1000 := by decide
    rw [h1] at hsmall ⊢
    simp only [if_true, parseInt]
    rw [toDouble_small _ (by omega), mul_small _ _ hsmall]
  · have h1 : unitFactor 'm' = 60000 := by decide
    rw [h1] at hsmall ⊢
    have hc : ¬ ('m' = 's') := by decide
    simp only [hc, if_false, if_true, parseInt]
    rw [toDouble_small _ (by omega), mul_small _ _ (by omega), mul_small _ _ (by omega)]
    have he : digitsValue ds * 60 * 1000 = digitsValue ds * 60000 := by omega
    rw [he]
  · have h1 : unitFactor 'h' = 3600000 := by decide
    rw [h1] at hsmall ⊢
    have hc1 : ¬ ('h' = 's') := by decide
    have hc2 : ¬ ('h' = 'm') := by decide
    simp only [hc1, hc2, if_false, if_true, parseInt]
    rw [toDouble_small _ (by omega), mul_small _ _ (by omega), mul_small _ _ (by omega),
      mul_small _ _ (by omega)]
    have he : digitsValue ds * 60 * 60 * 1000 = digitsValue ds * 3600000 := by omega
    rw [he]
  · have h1 : unitFactor 'd' = 86400000 := by decide
    rw [h1] at hsmall ⊢
    have hc1 : ¬ ('d' = 's') := by decide
    have hc2 : ¬ ('d' = 'm') := by decide
    have hc3 : ¬ ('d' = 'h') := by decide
    simp only [hc1, hc2, hc3, if_false, if_true, parseInt]
    rw [toDouble_small _ (by omega), mul_small _ _ (by omega), mul_small _ _ (by omega),
      mul_small _ _ (by omega), mul_small _ _ (by omega)]
    have he : digitsValue ds * 24 * 60 * 60 * 1000 = digitsValue ds * 86400000 := by omega
    rw [he]

/-- C13 (as amended): `getBackupInterval` raises exactly when the interval
string is not one or more decimal digits followed by a single character from
`s`, `m`, `h`, `d`; otherwise, for the digits read as the natural number `n`,
it returns `n*1000` for `s`, `n*60*1000` for `m`, `n*60*60*1000` for `h` and
`n*24*60*60*1000` for `d`, provided that product is below `2^53`. -/
theorem getBackupInterval_spec (s : String) :
    ((∃ e, getBackupInterval s = Except.error e) ↔ ¬ IsIntervalString s) ∧
    ∀ (ds : List Char) (u : Char), s.data = ds ++ [u] → ds ≠ [] →
      (∀ c ∈ ds, c.isDigit = true) → u ∈ unitChars →
      digitsValue ds * unitFactor u < 9007199254740992 →
      getBackupInterval s = Except.ok (Amount.finite (digitsValue ds * unitFactor u)) :=
  ⟨getBackupInterval_error_iff s, getBackupInterval_exact s⟩

/-- The amended C13 at the default interval `1d` and at `3x`. -/
theorem getBackupInterval_spec_witness :
    getBackupInterval "1d" = Except.ok (Amount.finite 86400000) ∧
    ¬ IsIntervalString "3x" ∧ getBackupInterval "3x" = Except.error IntervalError.invalid :=
  ⟨(getBackupInterval_spec "1d").2 ['1'] 'd' rfl (by decide) (by decide) (by decide)
      (by decide),
    (getBackupInterval_spec "3x").1.mp ⟨IntervalError.invalid, rfl⟩, rfl⟩

/-- C13 as stated fails beyond `2^53`: the string `9007199254740993s` is
sixteen digits followed by `s`, its digits read as `n = 9007199254740993`, and
`getBackupInterval` returns `9007199254740992000`, which is not `n*1000`. -/
theorem getBackupInterval_rounds :
    "9007199254740993s".data =
      ['9', '0', '0', '7', '1', '9', '9', '2', '5', '4', '7', '4', '0', '9', '9', '3'] ++ ['s'] ∧
    digitsValue ['9', '0', '0', '7', '1', '9', '9', '2', '5', '4', '7', '4', '0', '9', '9', '3'] =
      9007199254740993 ∧
    getBackupInterval "9007199254740993s" = Except.ok (Amount.finite 9007199254740992000) ∧
    9007199254740992000 ≠ 9007199254740993 * 1000 :=
  ⟨rfl, by decide, by rfl, by decide⟩

/-! ## Construction -/

/-- C12 (as amended): for every configuration in which backups are enabled
(`backupEnabled` left out or true) and whose `backupInterval` is not one or
more digits followed by one of `s`, `m`, `h`, `d`, whatever the other options,
the file and its content are, construction fails with an error and yields no
instance. -/
theorem construct_fails_on_bad_interval (backupsDir : String) (u : UserOptions)
    (file : FileRead) (parse : String → Option Json)
    (henabled : (mergeOptions backupsDir u).backupEnabled = true)
    (hbad : ¬ IsIntervalString (mergeOptions backupsDir u).backupInterval) :
    construct backupsDir u file parse = Except.error IntervalError.invalid := by
  obtain ⟨e, he⟩ := (getBackupInterval_error_iff _).mpr hbad
  cases e
  unfold construct setupBackup
  simp only [henabled, if_true, he]

/-- The amended C12 at `{ backupInterval: "3x" }`, backups enabled by
default. -/
theorem construct_fails_on_bad_interval_witness :
    (mergeOptions "backups" exBadInterval).backupEnabled = true ∧
    ¬ IsIntervalString (mergeOptions "backups" exBadInterval).backupInterval ∧
    construct "backups" exBadInterval FileRead.missing (fun _ => none) =
      Except.error IntervalError.invalid :=
  have hbad : ¬ IsIntervalString (mergeOptions "backups" exBadInterval).backupInterval :=
    (getBackupInterval_error_iff "3x").mp ⟨IntervalError.invalid, rfl⟩
  ⟨rfl, hbad,
    construct_fails_on_bad_interval "backups" exBadInterval FileRead.missing (fun _ => none)
      rfl hbad⟩

/-- C12 as stated fails: with `{ backupEnabled: false, backupInterval: "3x" }`
the interval is never read and construction yields an instance. -/
theorem construct_ignores_interval_when_disabled :
    ¬ IsIntervalString (mergeOptions "backups" exDisabled).backupInterval ∧
    construct "backups" exDisabled FileRead.missing (fun _ => none) =
      Except.ok { options := mergeOptions "backups" exDisabled, database := Json.obj [],
                  backupPeriod := none } :=
  ⟨(getBackupInterval_error_iff "3x").mp ⟨IntervalError.invalid, rfl⟩, rfl⟩

/-! ## `loadFromFile` -/

/-- The `catch` clause records what the `try` block threw and changes nothing
else. -/
theorem loadFromFile_eq (prior : Json) (saveOption : Bool) (file : FileRead)
    (parse : String → Option Json) :
    loadFromFile prior saveOption file parse =
      ({ database := (loadBody prior saveOption file parse).1,
         wrote := (loadBody prior saveOption file parse).2.1,
         caught := (loadBody prior saveOption file parse).2.2 }, none) := by
  unfold loadFromFile
  rcases loadBody prior saveOption file parse with ⟨database, wrote, _ | e⟩ <;> rfl

/-- C18 (as amended): `loadFromFile` raises nothing, whatever the file is.
When the file is missing nothing is caught and the database stays in its
prior state.  When the read fails or the text is not valid JSON, the failure
is caught and the database stays in its prior state.  When the text is
parsed, the database is the parsed content, and a failure of `buildIndexes`
on it, whichever it is, is caught like the others. -/
theorem loadFromFile_absorbs_failure (prior : Json) (saveOption : Bool) (file : FileRead)
    (parse : String → Option Json) :
    (loadFromFile prior saveOption file parse).2 = none ∧
    (file = FileRead.missing →
      (loadFromFile prior saveOption file parse).1.caught = none ∧
      (loadFromFile prior saveOption file parse).1.database = prior) ∧
    (file = FileRead.unreadable →
      (loadFromFile prior saveOption file parse).1.caught = some LoadError.readFailed ∧
      (loadFromFile prior saveOption file parse).1.database = prior) ∧
    (∀ data, file = FileRead.text data → parse data = none →
      (loadFromFile prior saveOption file parse).1.caught = some LoadError.syntaxError ∧
      (loadFromFile prior saveOption file parse).1.database = prior) ∧
    (∀ data j, file = FileRead.text data → parse data = some j →
      (loadFromFile prior saveOption file parse).1.database = j ∧
      (buildIndexesThrows j = true →
        (loadFromFile prior saveOption file parse).1.caught = some LoadError.typeError) ∧
      (buildIndexesThrows j = false →
        (loadFromFile prior saveOption file parse).1.caught = none)) := by
  rw [loadFromFile_eq]
  refine ⟨rfl, ?_, ?_, ?_, ?_⟩
  · intro h
    subst h
    exact ⟨rfl, rfl⟩
  · intro h
    subst h
    exact ⟨rfl, rfl⟩
  · intro data h hp
    subst h
    simp [loadBody, hp]
  · intro data j h hp
    subst h
    refine ⟨?_, ?_, ?_⟩
    · by_cases ht : buildIndexesThrows j = true <;> simp [loadBody, hp, ht]
    · intro ht
      simp [loadBody, hp, ht]
    · intro ht
      simp [loadBody, hp, ht]

/-- The amended C18 at a missing file, at an unreadable file, at a text that
is not JSON and at the texts `{"users": 5}` and
`{"users": [{"hasOwnProperty": 1}]}`. -/
theorem loadFromFile_absorbs_failure_witness :
    (loadFromFile (Json.obj []) true FileRead.unreadable (fun _ => none)).2 = none ∧
    (loadFromFile (Json.obj []) true FileRead.missing (fun _ => none)).1.caught = none ∧
    (loadFromFile (Json.obj []) true FileRead.unreadable (fun _ => none)).1.caught =
      some LoadError.readFailed ∧
    (loadFromFile (Json.obj []) true (FileRead.text "oops") (fun _ => none)).1.caught =
      some LoadError.syntaxError ∧
    (loadFromFile (Json.obj []) true (FileRead.text "oops") (fun _ => none)).1.database =
      Json.obj [] ∧
    (loadFromFile (Json.obj []) true (FileRead.text "\x7b\"users\": 5\x7d")
      (fun _ => some exBadShape)).1.caught = some LoadError.typeError ∧
    (loadFromFile (Json.obj []) true
      (FileRead.text "\x7b\"users\": [\x7b\"hasOwnProperty\": 1\x7d]\x7d")
      (fun _ => some exBadDocument)).1.caught = some LoadError.typeError :=
  ⟨(loadFromFile_absorbs_failure (Json.obj []) true FileRead.unreadable (fun _ => none)).1,
    ((loadFromFile_absorbs_failure (Json.obj []) true FileRead.missing
      (fun _ => none)).2.1 rfl).1,
    ((loadFromFile_absorbs_failure (Json.obj []) true FileRead.unreadable
      (fun _ => none)).2.2.1 rfl).1,
    ((loadFromFile_absorbs_failure (Json.obj []) true (FileRead.text "oops")
      (fun _ => none)).2.2.2.1 "oops" rfl rfl).1,
    ((loadFromFile_absorbs_failure (Json.obj []) true (FileRead.text "oops")
      (fun _ => none)).2.2.2.1 "oops" rfl rfl).2,
    ((loadFromFile_absorbs_failure (Json.obj []) true (FileRead.text "\x7b\"users\": 5\x7d")
      (fun _ => some exBadShape)).2.2.2.2 "\x7b\"users\": 5\x7d" exBadShape rfl rfl).2.1 rfl,
    ((loadFromFile_absorbs_failure (Json.obj []) true
      (FileRead.text "\x7b\"users\": [\x7b\"hasOwnProperty\": 1\x7d]\x7d")
      (fun _ => some exBadDocument)).2.2.2.2
      "\x7b\"users\": [\x7b\"hasOwnProperty\": 1\x7d]\x7d" exBadDocument rfl rfl).2.1 rfl⟩

/-- C18 as stated fails: when the file holds `{"users": 5}`, `buildIndexes`
throws on the parsed content, the failure is caught, and the database is the
parsed content, whose collection `users` is the number 5, not the empty
database it was before.  The same happens when the file holds
`{"users": [{"hasOwnProperty": 1}]}`, where `buildIndexes` throws at
`doc.hasOwnProperty(key)`. -/
theorem loadFromFile_keeps_parsed_content :
    buildIndexesThrows exBadShape = true ∧
    (loadFromFile (Json.obj []) true (FileRead.text "\x7b\"users\": 5\x7d")
      (fun _ => some exBadShape)).1.caught = some LoadError.typeError ∧
    (loadFromFile (Json.obj []) true (FileRead.text "\x7b\"users\": 5\x7d")
      (fun _ => some exBadShape)).1.database = exBadShape ∧
    exBadShape ≠ Json.obj [] ∧
    buildIndexesThrows exBadDocument = true ∧
    (loadFromFile (Json.obj []) true
      (FileRead.text "\x7b\"users\": [\x7b\"hasOwnProperty\": 1\x7d]\x7d")
      (fun _ => some exBadDocument)).1.caught = some LoadError.typeError ∧
    (loadFromFile (Json.obj []) true
      (FileRead.text "\x7b\"users\": [\x7b\"hasOwnProperty\": 1\x7d]\x7d")
      (fun _ => some exBadDocument)).1.database = exBadDocument :=
  ⟨rfl, rfl, rfl, (by intro h; injection h with h; cases h), rfl, rfl, rfl⟩

end NoDB
